import Mathlib

/-!
# getty.c: speed table, banner rendering, the username reader and main

A shallow embedding of `src/getty.c`.  Characters are byte values (`Nat`), a C
string is the list of the bytes of its array, and reading at or past the end
of the list yields the terminator 0.  Calls into the C library and the kernel
(`strtoul`, `read`, `write`, `fgets`, `ttyname`, `open`, `fstat`, `execl`) are
modelled by what they return or transfer.
-/

namespace Getty

/-! ## Characters and descriptors -/

/-- Bytes of a string up to its terminator, what `strlen` measures. -/
def cstr (s : List Nat) : List Nat := s.takeWhile (fun c => c != 0)

/-- The macro `CTL(x)`, `((x) ^ 0100)` (line 55). -/
def CTL (x : Nat) : Nat := x ^^^ 0o100

/-- Descriptor number of standard input, from `unistd.h`. -/
def STDIN_FILENO : Int := 0

/-- Descriptor number of standard output, from `unistd.h`. -/
def STDOUT_FILENO : Int := 1

/-! ## parse_speed (lines 240-290) -/

/-- The line speed enumerators of `termios.h` named in the table of `parse_speed`. -/
inductive speed_t
  | B0 | B50 | B75 | B110 | B134 | B150 | B200 | B300 | B600 | B1200 | B1800
  | B2400 | B4800 | B9600 | B19200 | B38400 | B57600 | B115200 | B230400
  | B460800 | B500000 | B576000 | B921600 | B1000000 | B1152000 | B1500000
  | B2000000 | B2500000 | B3000000 | B3500000 | B4000000
  deriving DecidableEq, Repr

open speed_t

/-- The table `v2s` of `parse_speed` (lines 245-277), in source order. -/
def v2s : List (Nat × speed_t) :=
  [ (0, B0), (50, B50), (75, B75), (110, B110), (134, B134), (150, B150),
    (200, B200), (300, B300), (600, B600), (1200, B1200), (1800, B1800),
    (2400, B2400), (4800, B4800), (9600, B9600), (19200, B19200),
    (38400, B38400), (57600, B57600), (115200, B115200), (230400, B230400),
    (460800, B460800), (500000, B500000), (576000, B576000), (921600, B921600),
    (1000000, B1000000), (1152000, B1152000), (1500000, B1500000),
    (2000000, B2000000), (2500000, B2500000), (3000000, B3000000),
    (3500000, B3500000), (4000000, B4000000) ]

/-- White space in the C locale: space and the controls from tab to carriage return. -/
def isspace (c : Nat) : Bool := c == 32 || (9 ≤ c && c ≤ 13)

/-- Decimal digit characters. -/
def isdigit (c : Nat) : Bool := 48 ≤ c && c ≤ 57

/-- Value of a run of decimal digit characters, most significant first. -/
def digitsValue (ds : List Nat) : Nat := ds.foldl (fun acc c => 10 * acc + (c - 48)) 0

/-- What one call `strtoul(baud, &ptr, 10)` leaves behind: the returned value, the
offset `ptr - baud` of the first character not consumed, and whether `errno` was
set (to `ERANGE`). -/
structure StrtoulResult where
  val : Nat
  endOff : Nat
  errnoSet : Bool
  deriving DecidableEq, Repr

/-- The C library function `strtoul` in base 10, for an `unsigned long` with
largest value `ULONG_MAX`: leading white space is skipped, one sign is accepted,
then the longest run of digits is converted.  With no digit nothing is consumed
and 0 is returned; a magnitude above `ULONG_MAX` gives `ULONG_MAX` with `errno`
set; a minus sign negates the value in `unsigned long`.  Whatever follows the
digits is left unread. -/
def strtoul (ULONG_MAX : Nat) (baud : List Nat) : StrtoulResult :=
  let ws := baud.takeWhile isspace
  let s1 := baud.dropWhile isspace
  let neg := s1.head? == some 45
  let sign := if s1.head? == some 45 || s1.head? == some 43 then 1 else 0
  let ds := (s1.drop sign).takeWhile isdigit
  if ds.isEmpty then
    { val := 0, endOff := 0, errnoSet := false }
  else if ULONG_MAX < digitsValue ds then
    { val := ULONG_MAX, endOff := ws.length + sign + ds.length, errnoSet := true }
  else
    { val := if neg then (ULONG_MAX + 1 - digitsValue ds) % (ULONG_MAX + 1) else digitsValue ds,
      endOff := ws.length + sign + ds.length, errnoSet := false }

/-- The loop of lines 284-287: the enumerator of the first table row whose rate
equals `val`, and `B0` (line 289) when the rows are exhausted. -/
def lookup (val : Nat) : List (Nat × speed_t) → speed_t
  | [] => B0
  | (v, sp) :: rows => if v = val then sp else lookup val rows

/-- The function `parse_speed` (lines 240-290). -/
def parse_speed (ULONG_MAX : Nat) (baud : List Nat) : speed_t :=
  let r := strtoul ULONG_MAX baud
  if r.errnoSet || r.endOff == 0 then B0 else lookup r.val v2s

/-- Decimal text of a number as bytes. -/
def decimal (n : Nat) : List Nat := (Nat.toDigits 10 n).map Char.toNat

/-- The supported rate strings: the decimal text of each rate of the table. -/
def rateStrings : List (List Nat) := v2s.map (fun p => decimal p.1)

/-! ## parse (lines 99-142) -/

/-- The fields of `struct utsname` that `parse` prints; `domainname` exists under
`_GNU_SOURCE` only. -/
structure utsname where
  sysname : List Nat
  nodename : List Nat
  release : List Nat
  version : List Nat
  machine : List Nat
  domainname : List Nat

/-- One call of `write` made by `parse`.  `span fd s0 n` is `write(fd, line + s0, n)`
with `n` the signed pointer difference `s - s0` of the source; `str fd bytes` is a
write of a string that is not part of the template. -/
inductive WriteCall
  | span (fd : Int) (s0 : Nat) (n : Int)
  | str (fd : Int) (bytes : List Nat)
  deriving DecidableEq, Repr

/-- The macro `print(s)`, `(void)write(STDOUT_FILENO, s, strlen(s))` (line 56). -/
def print (s : List Nat) : WriteCall := WriteCall.str STDOUT_FILENO (cstr s)

/-- The `case` labels of the switch of lines 108-131 that print a value: `l`, `m`,
`n`, `o` (when `_GNU_SOURCE` is defined), `r`, `s`, `v`. -/
def directive (gnu : Bool) (uts : utsname) (tty : List Nat) (d : Nat) : Option (List Nat) :=
  if d = 108 then some tty
  else if d = 109 then some uts.machine
  else if d = 110 then some uts.nodename
  else if gnu = true ∧ d = 111 then some uts.domainname
  else if d = 114 then some uts.release
  else if d = 115 then some uts.sysname
  else if d = 118 then some uts.version
  else none

/-- The `for` loop of `parse` (lines 104-138) and the final write at `leave`
(line 141).  The first argument is the template from offset `s` on, `s0` is the
start of the pending literal span.  At a backslash the pending span is written to
`fd`, `s0` becomes `s + 2` and the next character is switched on: a directive
prints its value, the terminator jumps to `leave` (with `s` one below `s0`), any
other character resets `s0` to the backslash. -/
def parseLoop (gnu : Bool) (uts : utsname) (tty : List Nat) (fd : Int) :
    List Nat → Nat → Nat → List WriteCall
  | [], s, s0 => [WriteCall.span 1 s0 ((s : Int) - (s0 : Int))]
  | c :: rest, s, s0 =>
    if c = 0 then [WriteCall.span 1 s0 ((s : Int) - (s0 : Int))]
    else if c = 92 then
      WriteCall.span fd s0 ((s : Int) - (s0 : Int)) ::
        (match rest with
         | [] => [WriteCall.span 1 (s + 2) (((s + 1 : Nat) : Int) - ((s + 2 : Nat) : Int))]
         | d :: rest2 =>
           match directive gnu uts tty d with
           | some v => print v :: parseLoop gnu uts tty fd rest2 (s + 2) (s + 2)
           | none =>
             if d = 0 then
               [WriteCall.span 1 (s + 2) (((s + 1 : Nat) : Int) - ((s + 2 : Nat) : Int))]
             else parseLoop gnu uts tty fd rest2 (s + 2) s)
    else parseLoop gnu uts tty fd rest (s + 1) s0

/-- The function `parse` (lines 99-142): the calls of `write` it makes, in order. -/
def parse (gnu : Bool) (line : List Nat) (uts : utsname) (tty : List Nat) (fd : Int) :
    List WriteCall :=
  parseLoop gnu uts tty fd line 0 0

/-- Descriptor a call writes to. -/
def WriteCall.fd : WriteCall → Int
  | WriteCall.span fd _ _ => fd
  | WriteCall.str fd _ => fd

/-- Bytes one call transfers.  A span of length `n ≥ 0` transfers the `n` template
bytes from `s0`; a negative `n` reaches `write` as a `size_t` above `SSIZE_MAX`,
the call is refused by the kernel (`EFAULT` or `EINVAL`) and transfers nothing. -/
def WriteCall.bytes (line : List Nat) : WriteCall → List Nat
  | WriteCall.span _ s0 n => if n < 0 then [] else (line.drop s0).take n.toNat
  | WriteCall.str _ bytes => bytes

/-- Total output of a sequence of calls: the bytes transferred, in order. -/
def output (line : List Nat) : List WriteCall → List Nat
  | [] => []
  | c :: cs => c.bytes line ++ output line cs

/-- Total output of `parse` on a template. -/
def rendered (gnu : Bool) (line : List Nat) (uts : utsname) (tty : List Nat) (fd : Int) :
    List Nat :=
  output line (parse gnu line uts tty fd)

/-! ## readch and getty (lines 62-80, 175-208) -/

/-- What one call `read(fd, &ch1, 1)` gives: a byte (`st == 1`), end of input
(`st == 0`) or an error (`st < 0`). -/
inductive ReadResult
  | byte (ch1 : Nat)
  | eof
  | error
  deriving DecidableEq, Repr

/-- Observable steps of `getty`: a call of `issue`, a call of `write`, and a store
`name[idx] = val` into the username buffer. -/
inductive Event
  | issue (tty : List Nat) (fd : Int)
  | write (fd : Int) (bytes : List Nat)
  | store (idx : Nat) (val : Nat)
  deriving DecidableEq, Repr

/-- Result of `readch`: the character, or the end of the process with the events
of the exit path and the exit code. -/
inductive Readch
  | ch (c : Nat)
  | exit (events : List Event) (code : Nat)
  deriving DecidableEq, Repr

/-- The function `readch` (lines 62-80) on the result of its `read`: end of input
prints a newline and exits 0, an error exits 1 through `errx` (the diagnostic on
standard error is not recorded), a byte is returned as `ch1 & 0xFF`. -/
def readch (r : ReadResult) : Readch :=
  match r with
  | ReadResult.eof => Readch.exit [Event.write STDOUT_FILENO [10]] 0
  | ReadResult.error => Readch.exit [] 1
  | ReadResult.byte ch1 => Readch.ch (ch1 &&& 0xFF)

/-- Memory after the store `mem[i] = v`. -/
def poke (mem : Nat → Nat) (i v : Nat) : Nat → Nat := fun j => if j = i then v else mem j

/-- State of `getty`: the offset `np - name`, the memory at `name` (cell `i` is
`name[i]`; the cells from `len` on lie behind the buffer) and the events so far. -/
structure GState where
  np : Nat
  mem : Nat → Nat
  trace : List Event

/-- Append one event. -/
def GState.emit (st : GState) (e : Event) : GState :=
  { st with trace := st.trace ++ [e] }

/-- The store `name[i] = v`, recorded in the trace. -/
def GState.store (st : GState) (i v : Nat) : GState :=
  { st with mem := poke st.mem i v, trace := st.trace ++ [Event.store i v] }

/-- How a run ends: `getty` returns, the process exits, the recorded reads are used
up with the process waiting in `read`, or the fuel of the outer loop ran out. -/
inductive Outcome
  | returned
  | exited (code : Nat)
  | blocked
  | outOfFuel
  deriving DecidableEq, Repr

/-- How the inner loop stops: at a newline (with the reads that remain), or as the
process ends or waits. -/
inductive LineStop
  | newline (rest : List ReadResult)
  | exited (code : Nat)
  | blocked
  deriving DecidableEq, Repr

/-- The loop of lines 191-194: one erase sequence per buffered character. -/
def eraseLoop (fd : Int) : Nat → GState → GState
  | 0, st => { st with np := 0 }
  | n + 1, st => eraseLoop fd n ((st.emit (Event.write fd [8, 32, 8])))

/-- The inner loop of `getty` (lines 189-200), one `readch` per round: newline ends
the loop, `CTL('U')` runs the erase loop from the current `np`, any other
character is stored at `np` when `np < name + len` and dropped otherwise. -/
def lineLoop (fd : Int) (len : Nat) : List ReadResult → GState → LineStop × GState
  | [], st => (LineStop.blocked, st)
  | r :: rest, st =>
    match readch r with
    | Readch.exit evs code => (LineStop.exited code, { st with trace := st.trace ++ evs })
    | Readch.ch ch =>
      if ch = 10 then (LineStop.newline rest, st)
      else if ch = CTL 85 then lineLoop fd len rest (eraseLoop fd st.np st)
      else if st.np < len then
        lineLoop fd len rest { (st.store st.np ch) with np := st.np + 1 }
      else lineLoop fd len rest st

/-- The outer loop of `getty` (lines 185-205).  Each round calls `issue`, resets
`np`, runs the inner loop, stores the terminator at `np` and goes round again when
`name[0]` is 0.  Every further round has consumed at least one read, so a fuel
above the number of reads is never used up. -/
def gettyLoop (fd : Int) (tty : List Nat) (len : Nat) :
    Nat → List ReadResult → GState → Outcome × GState
  | 0, _, st => (Outcome.outOfFuel, st)
  | fuel + 1, input, st =>
    match lineLoop fd len input { (st.emit (Event.issue tty fd)) with np := 0 } with
    | (LineStop.exited code, st1) => (Outcome.exited code, st1)
    | (LineStop.blocked, st1) => (Outcome.blocked, st1)
    | (LineStop.newline rest, st1) =>
      let st2 := st1.store st1.np 0
      if st2.mem 0 = 0 then gettyLoop fd tty len fuel rest st2
      else (Outcome.returned, st2)

/-- The function `getty` (lines 175-208) on the successive results of `read`:
`name` is the memory at the buffer on entry, `len` its capacity (at least 1; `main`
passes `sizeof(name)`, 30). -/
def getty (fd : Int) (tty : List Nat) (name : Nat → Nat) (len : Nat)
    (input : List ReadResult) : Outcome × GState :=
  let st0 := GState.store { np := 0, mem := name, trace := [] } 0 0
  match gettyLoop fd tty len (input.length + 1) input st0 with
  | (Outcome.returned, st) => (Outcome.returned, st.store (len - 1) 0)
  | r => r

/-- The username a caller finds in the buffer: the string that starts at `name[0]`,
read inside the `len` cells of the buffer. -/
def username (mem : Nat → Nat) (len : Nat) : List Nat :=
  cstr ((List.range len).map mem)

/-- Indices of the stores recorded in a trace. -/
def storeIndices : List Event → List Nat
  | [] => []
  | Event.store i _ :: es => i :: storeIndices es
  | Event.issue _ _ :: es => storeIndices es
  | Event.write _ _ :: es => storeIndices es

/-- Number of calls of `issue` recorded in a trace. -/
def issueCount : List Event → Nat
  | [] => 0
  | Event.issue _ _ :: es => issueCount es + 1
  | Event.write _ _ :: es => issueCount es
  | Event.store _ _ :: es => issueCount es

/-- A stream of bytes as successive results of `read`. -/
def bytes (l : List Nat) : List ReadResult := l.map ReadResult.byte

/-- The size of `name` in `main` (line 294), passed to `getty` as `len`. -/
def NAME_SIZE : Nat := 30

/-! ## Auxiliary functions used to state the theorems -/

/-- Memory after the bytes `cs` are stored at `i`, `i + 1`, ... -/
def pokes : (Nat → Nat) → Nat → List Nat → Nat → Nat
  | mem, _, [] => mem
  | mem, i, c :: cs => pokes (poke mem i c) (i + 1) cs

/-- The store events of the bytes `cs` at `i`, `i + 1`, ... -/
def storeEvents : Nat → List Nat → List Event
  | _, [] => []
  | i, c :: cs => Event.store i c :: storeEvents (i + 1) cs

/-- The events of `k` rounds of the outer loop that read a bare newline: the call
of `issue` and the store of the terminator at `name[0]`. -/
def blankRounds (tty : List Nat) (fd : Int) : Nat → List Event
  | 0 => []
  | k + 1 => Event.issue tty fd :: Event.store 0 0 :: blankRounds tty fd k

/-- The write of `readch` at end of input, `print("\n")`. -/
def exitNewline : Event := Event.write STDOUT_FILENO [10]

/-- The buffer after a line whose buffered characters are the first `len` of `l`:
these are stored from `name[0]` on, then the terminator at `np` (line 202) and at
`name[len - 1]` (line 207). -/
def finalMem (mem : Nat → Nat) (l : List Nat) (len : Nat) : Nat → Nat :=
  poke (poke (pokes mem 0 (l.take len)) (min l.length len) 0) (len - 1) 0

/-- One round of the outer loop that reads a bare newline. -/
def blankRound (tty : List Nat) (fd : Int) (st : GState) : GState :=
  GState.store { (st.emit (Event.issue tty fd)) with np := 0 } 0 0

/-- The state after `k` rounds that read a bare newline. -/
def afterBlanks (tty : List Nat) (fd : Int) : Nat → GState → GState
  | 0, st => st
  | k + 1, st => afterBlanks tty fd k (blankRound tty fd st)

/-- Events of the line editing: stores into the buffer and erase sequences. -/
def isEdit : Event → Bool
  | Event.store _ _ => true
  | Event.write _ b => b == [8, 32, 8]
  | Event.issue _ _ => false

/-- A sample of host metadata: "Linux", "host", "6.1", "#1", "x86_64", "dom". -/
def sampleUts : utsname :=
  { sysname := [76, 105, 110, 117, 120], nodename := [104, 111, 115, 116],
    release := [54, 46, 49], version := [35, 49],
    machine := [120, 56, 54, 95, 54, 52], domainname := [100, 111, 109] }

/-! ## issue (lines 147-170) -/

/-- The initial content of `buf` in `issue` (line 150), the default banner:
"Welcome to ", backslash `s`, " ", backslash `v`, " ", backslash `n`, " ",
backslash `l`, and two newlines. -/
def defaultBanner : List Nat :=
  [87, 101, 108, 99, 111, 109, 101, 32, 116, 111, 32, 92, 115, 32, 92, 118, 32,
    92, 110, 32, 92, 108, 10, 10]

/-- The template of line 169: backslash, `n`, " login: ". -/
def loginTemplate : List Nat := [92, 110, 32, 108, 111, 103, 105, 110, 58, 32]

/-- One call made by `issue`: `print(s)` or `parse(line, &uts, tty, fd)`. -/
inductive IssueStep
  | print (s : List Nat)
  | parse (line : List Nat) (uts : utsname) (tty : List Nat) (fd : Int)

/-- The function `issue` (lines 147-170): the calls it makes, in order.  `uts` is
what `uname` fills in; `fp` is `none` when `fopen("/etc/issue", "r")` fails and
otherwise holds the successive strings that `fgets` puts into `buf` until it
returns `NULL`. -/
def issue (uts : utsname) (fp : Option (List (List Nat))) (tty : List Nat) (fd : Int) :
    List IssueStep :=
  IssueStep.print [10] ::
    ((match fp with
      | some lines => lines.map (fun buf => IssueStep.parse buf uts tty fd)
      | none => [IssueStep.parse defaultBanner uts tty fd]) ++
    [IssueStep.parse loginTemplate uts tty fd])

/-- Bytes one call of `issue` transfers. -/
def IssueStep.output (gnu : Bool) : IssueStep → List Nat
  | IssueStep.print s => cstr s
  | IssueStep.parse line uts tty fd => rendered gnu line uts tty fd

/-- Total output of a sequence of calls of `issue`. -/
def issueOutput (gnu : Bool) : List IssueStep → List Nat
  | [] => []
  | c :: cs => c.output gnu ++ issueOutput gnu cs

/-! ## login, usage and main (lines 215-238, 292-348) -/

/-- The programs `login` tries to execute: `_PATH_LOGIN` with the username as its
argument, and `_PATH_BSHELL`. -/
inductive Prog
  | login (name : List Nat)
  | shell
  deriving DecidableEq, Repr

/-- The diagnostics written through `warnx`. -/
inductive Diag
  | invalidSpeed
  | unknownTty
  | execFailed
  deriving DecidableEq, Repr

/-- Calls made by `main` and `login`, in order. -/
inductive MainStep
  | usage
  | openTty (path : List Nat) (fd : Int)
  | ttyname (fd : Int)
  | warnx (d : Diag)
  | signals
  | pause
  | stty (fd : Int) (speed : speed_t)
  | getty (fd : Int) (tty : List Nat) (len : Nat)
  | execl (p : Prog)
  | fstat (fd : Int)
  deriving DecidableEq, Repr

/-- How the process ends: `main` returns, the process exits inside `getty`, waits
in `read`, is replaced by an executed program, or reaches a read of a variable
that was never assigned or a use of a null pointer as a string. -/
inductive MainEnd
  | returned (code : Nat)
  | exited (code : Nat)
  | blocked
  | outOfFuel
  | replaced (p : Prog)
  | uninitialised
  | nullString
  deriving DecidableEq, Repr

/-- What the system answers to the calls of `main`: the largest `unsigned long`,
the result of `ttyname` (`none` for `NULL`), the descriptor `open` returns for a
path, the memory at `name` and the results of the reads on the terminal, the
result of `fstat` on a descriptor (`none` when it fails, otherwise whether the
mode is a character device), and whether each `execl` succeeds. -/
structure Env where
  ULONG_MAX : Nat
  ttyname : Int → Option (List Nat)
  openTty : List Nat → Int
  name : Nat → Nat
  input : List ReadResult
  fstat : Int → Option Bool
  execLogin : Bool
  execShell : Bool

/-- The device directory `_PATH_DEV` of `paths.h`, "/dev/". -/
def _PATH_DEV : List Nat := [47, 100, 101, 118, 47]

/-- The function `login` (lines 215-232): `execl` of the login program; when that
fails, the diagnostic, `fstat` on descriptor 0 and, when it succeeds with a
character device, `execl` of the shell; `return 1` when nothing was executed. -/
def login (env : Env) (name : List Nat) : List MainStep × MainEnd :=
  if env.execLogin = true then
    ([MainStep.execl (Prog.login name)], MainEnd.replaced (Prog.login name))
  else if env.fstat 0 = some true then
    if env.execShell = true then
      ([MainStep.execl (Prog.login name), MainStep.warnx Diag.execFailed, MainStep.fstat 0,
        MainStep.execl Prog.shell], MainEnd.replaced Prog.shell)
    else
      ([MainStep.execl (Prog.login name), MainStep.warnx Diag.execFailed, MainStep.fstat 0,
        MainStep.execl Prog.shell], MainEnd.returned 1)
  else
    ([MainStep.execl (Prog.login name), MainStep.warnx Diag.execFailed, MainStep.fstat 0],
      MainEnd.returned 1)

/-- The function `usage` (lines 234-238). -/
def usage (code : Nat) : List MainStep × MainEnd := ([MainStep.usage], MainEnd.returned code)

/-- A `char *` variable of `main`: not yet assigned, null, or pointing to a string. -/
inductive Ptr
  | unassigned
  | null
  | str (s : List Nat)
  deriving DecidableEq, Repr

/-- The end of lines 299-322: either `main` has returned (or cannot go on), or it
goes on with the calls so far and its variables `fd` (`none` while unassigned),
`tty` and `speed`. -/
inductive Setup
  | done (steps : List MainStep) (e : MainEnd)
  | go (steps : List MainStep) (fd : Option Int) (tty : Ptr) (speed : speed_t)

/-- Lines 296-322 of `main`.  With no argument nothing is assigned but `speed`.
With a TTY argument `ttyn` is `_PATH_DEV` followed by at most 24 characters of
it (`strncpy`, `strncat` into 30 bytes) and `fd` is what `open` returns; without
one `fd` is standard input and `tty` is the result of `ttyname`, passed to
`strncmp` as it is, and advanced by 5 when it starts with `_PATH_DEV`. -/
def mainArgs (env : Env) (argv : List (List Nat)) : Setup :=
  if 1 < argv.length then
    if cstr (argv.getD 1 []) = [45, 104] then
      Setup.done (usage 0).1 (usage 0).2
    else if 2 < argv.length then
      let ttyn := _PATH_DEV ++ (cstr (argv.getD 2 [])).take 24
      if parse_speed env.ULONG_MAX (argv.getD 1 []) = speed_t.B0 then
        Setup.done [MainStep.openTty ttyn (env.openTty ttyn), MainStep.warnx Diag.invalidSpeed]
          (MainEnd.returned 1)
      else
        Setup.go [MainStep.openTty ttyn (env.openTty ttyn)] (some (env.openTty ttyn))
          (Ptr.str ttyn) (parse_speed env.ULONG_MAX (argv.getD 1 []))
    else
      match env.ttyname STDIN_FILENO with
      | none => Setup.done [MainStep.ttyname STDIN_FILENO] MainEnd.nullString
      | some t =>
        let tty := if (cstr t).take _PATH_DEV.length = _PATH_DEV then t.drop 5 else t
        if parse_speed env.ULONG_MAX (argv.getD 1 []) = speed_t.B0 then
          Setup.done [MainStep.ttyname STDIN_FILENO, MainStep.warnx Diag.invalidSpeed]
            (MainEnd.returned 1)
        else
          Setup.go [MainStep.ttyname STDIN_FILENO] (some STDIN_FILENO) (Ptr.str tty)
            (parse_speed env.ULONG_MAX (argv.getD 1 []))
  else
    Setup.go [] none Ptr.unassigned speed_t.B38400

/-- Lines 324-347 of `main`, entered with the variables as `mainArgs` left them:
the signals are ignored, `tty` is tested, then `stty`, `getty` and `login` are
called with `fd`, `tty`, `name` and `sizeof(name)`. -/
def mainLine (env : Env) (fd : Option Int) (tty : Ptr) (speed : speed_t) :
    List MainStep × MainEnd :=
  match tty with
  | Ptr.unassigned => ([MainStep.signals], MainEnd.uninitialised)
  | Ptr.null =>
    ([MainStep.signals, MainStep.warnx Diag.unknownTty, MainStep.pause], MainEnd.returned 1)
  | Ptr.str t =>
    match fd with
    | none => ([MainStep.signals], MainEnd.uninitialised)
    | some d =>
      match getty d t env.name NAME_SIZE env.input with
      | (Outcome.returned, st) =>
        ([MainStep.signals, MainStep.stty d speed, MainStep.getty d t NAME_SIZE] ++
            (login env (username st.mem NAME_SIZE)).1,
          (login env (username st.mem NAME_SIZE)).2)
      | (Outcome.exited code, _) =>
        ([MainStep.signals, MainStep.stty d speed, MainStep.getty d t NAME_SIZE],
          MainEnd.exited code)
      | (Outcome.blocked, _) =>
        ([MainStep.signals, MainStep.stty d speed, MainStep.getty d t NAME_SIZE],
          MainEnd.blocked)
      | (Outcome.outOfFuel, _) =>
        ([MainStep.signals, MainStep.stty d speed, MainStep.getty d t NAME_SIZE],
          MainEnd.outOfFuel)

/-- The function `main` (lines 292-348) on the argument vector `argv` (`argv[0]`
included): the calls it makes and how the process ends. -/
def main (env : Env) (argv : List (List Nat)) : List MainStep × MainEnd :=
  match mainArgs env argv with
  | Setup.done steps e => (steps, e)
  | Setup.go steps fd tty speed =>
    (steps ++ (mainLine env fd tty speed).1, (mainLine env fd tty speed).2)

/-- The calls that configure the line, read the username or hand over. -/
def MainStep.isLine : MainStep → Bool
  | MainStep.stty _ _ => true
  | MainStep.getty _ _ _ => true
  | MainStep.execl _ => true
  | MainStep.usage => false
  | MainStep.openTty _ _ => false
  | MainStep.ttyname _ => false
  | MainStep.warnx _ => false
  | MainStep.signals => false
  | MainStep.pause => false
  | MainStep.fstat _ => false

/-- A sample of the system: 64-bit `unsigned long`, standard input named
"/dev/tty1", `open` returning 3, the user typing "a" and newline, descriptor 0 a
character device and descriptor 3 not one, and both `execl` failing. -/
def sampleEnv : Env :=
  { ULONG_MAX := 2 ^ 64 - 1,
    ttyname := fun _ => some [47, 100, 101, 118, 47, 116, 116, 121, 49],
    openTty := fun _ => 3,
    name := fun _ => 0,
    input := [ReadResult.byte 97, ReadResult.byte 10],
    fstat := fun d => if d = 0 then some true else some false,
    execLogin := false,
    execShell := false }

end Getty

/-! ## Theorems: parse_speed -/

namespace Getty
open speed_t

theorem takeWhile_eq_self {p : Nat → Bool} :
    ∀ (l : List Nat), (∀ c ∈ l, p c = true) → l.takeWhile p = l
  | [], _ => rfl
  | c :: l, h => by
    have hc : p c = true := h c (List.mem_cons_self c l)
    have hl : ∀ d ∈ l, p d = true := fun d hd => h d (List.mem_cons_of_mem c hd)
    simp [List.takeWhile_cons, hc, takeWhile_eq_self l hl]

theorem isdigit_not_space {c : Nat} (h : isdigit c = true) : isspace c = false := by
  simp only [isdigit, Bool.and_eq_true, decide_eq_true_eq] at h
  simp only [isspace, Bool.or_eq_false_iff, Bool.and_eq_false_iff, beq_eq_false_iff_ne,
    decide_eq_false_iff_not]
  omega

/-- On a non-empty run of digits whose value fits, `strtoul` returns that value,
consumes the whole run and leaves `errno` alone. -/
theorem strtoul_digits (U : Nat) (ds : List Nat) (hne : ds ≠ [])
    (hd : ∀ c ∈ ds, isdigit c = true) (hU : digitsValue ds ≤ U) :
    strtoul U ds = { val := digitsValue ds, endOff := ds.length, errnoSet := false } := by
  obtain ⟨c, t, rfl⟩ := List.exists_cons_of_ne_nil hne
  have hc : isdigit c = true := hd c (List.mem_cons_self c t)
  have hsp : isspace c = false := isdigit_not_space hc
  have h45 : c ≠ 45 := by
    simp only [isdigit, Bool.and_eq_true, decide_eq_true_eq] at hc; omega
  have h43 : c ≠ 43 := by
    simp only [isdigit, Bool.and_eq_true, decide_eq_true_eq] at hc; omega
  have htw : (c :: t).takeWhile isdigit = c :: t := takeWhile_eq_self _ hd
  have hnot : ¬ U < digitsValue (c :: t) := by omega
  simp [strtoul, List.takeWhile_cons, List.dropWhile_cons, hsp, h45, h43, htw, hnot]

/-- Every row of the table: its decimal text is a non-empty run of digits with the
row's value, and the lookup loop stops at that row. -/
theorem v2s_rows :
    ∀ p ∈ v2s, decimal p.1 ≠ [] ∧ (∀ c ∈ decimal p.1, isdigit c = true) ∧
      digitsValue (decimal p.1) = p.1 ∧ p.1 ≤ 4000000 ∧ lookup p.1 v2s = p.2 := by
  decide

/-- Facts about the 31 supported rate strings, each with its rate and enumerator:
the string is the decimal text of the rate, a non-empty run of digits whose value
is at most 4000000, and the lookup loop of `parse_speed` ends at the enumerator. -/
theorem supported_rows :
    ∀ p ∈ ([(0, [48], B0), (50, [53, 48], B50), (75, [55, 53], B75),
      (110, [49, 49, 48], B110), (134, [49, 51, 52], B134), (150, [49, 53, 48], B150),
      (200, [50, 48, 48], B200), (300, [51, 48, 48], B300), (600, [54, 48, 48], B600),
      (1200, [49, 50, 48, 48], B1200), (1800, [49, 56, 48, 48], B1800),
      (2400, [50, 52, 48, 48], B2400), (4800, [52, 56, 48, 48], B4800),
      (9600, [57, 54, 48, 48], B9600), (19200, [49, 57, 50, 48, 48], B19200),
      (38400, [51, 56, 52, 48, 48], B38400), (57600, [53, 55, 54, 48, 48], B57600),
      (115200, [49, 49, 53, 50, 48, 48], B115200),
      (230400, [50, 51, 48, 52, 48, 48], B230400),
      (460800, [52, 54, 48, 56, 48, 48], B460800),
      (500000, [53, 48, 48, 48, 48, 48], B500000),
      (576000, [53, 55, 54, 48, 48, 48], B576000),
      (921600, [57, 50, 49, 54, 48, 48], B921600),
      (1000000, [49, 48, 48, 48, 48, 48, 48], B1000000),
      (1152000, [49, 49, 53, 50, 48, 48, 48], B1152000),
      (1500000, [49, 53, 48, 48, 48, 48, 48], B1500000),
      (2000000, [50, 48, 48, 48, 48, 48, 48], B2000000),
      (2500000, [50, 53, 48, 48, 48, 48, 48], B2500000),
      (3000000, [51, 48, 48, 48, 48, 48, 48], B3000000),
      (3500000, [51, 53, 48, 48, 48, 48, 48], B3500000),
      (4000000, [52, 48, 48, 48, 48, 48, 48], B4000000)] : List (Nat × List Nat × speed_t)),
      decimal p.1 = p.2.1 ∧ p.2.1 ≠ [] ∧ (∀ c ∈ p.2.1, isdigit c = true) ∧
        digitsValue p.2.1 ≤ 4000000 ∧ lookup (digitsValue p.2.1) v2s = p.2.2 := by
  decide

/-- C1: each of the 31 rates 0, 50, 75, ..., 4000000, written as a decimal string,
is mapped by `parse_speed` to the enumerator of that rate (the rows below give
the rate, its string as bytes, and the enumerator), whatever the width of
`unsigned long` (at least 32 bits, as C requires); in particular "9600" gives
`B9600` and "4000000" gives `B4000000`. -/
theorem parse_speed_supported (ULONG_MAX : Nat) (hU : 4294967295 ≤ ULONG_MAX) :
    (∀ p ∈ ([(0, [48], B0), (50, [53, 48], B50), (75, [55, 53], B75),
      (110, [49, 49, 48], B110), (134, [49, 51, 52], B134), (150, [49, 53, 48], B150),
      (200, [50, 48, 48], B200), (300, [51, 48, 48], B300), (600, [54, 48, 48], B600),
      (1200, [49, 50, 48, 48], B1200), (1800, [49, 56, 48, 48], B1800),
      (2400, [50, 52, 48, 48], B2400), (4800, [52, 56, 48, 48], B4800),
      (9600, [57, 54, 48, 48], B9600), (19200, [49, 57, 50, 48, 48], B19200),
      (38400, [51, 56, 52, 48, 48], B38400), (57600, [53, 55, 54, 48, 48], B57600),
      (115200, [49, 49, 53, 50, 48, 48], B115200),
      (230400, [50, 51, 48, 52, 48, 48], B230400),
      (460800, [52, 54, 48, 56, 48, 48], B460800),
      (500000, [53, 48, 48, 48, 48, 48], B500000),
      (576000, [53, 55, 54, 48, 48, 48], B576000),
      (921600, [57, 50, 49, 54, 48, 48], B921600),
      (1000000, [49, 48, 48, 48, 48, 48, 48], B1000000),
      (1152000, [49, 49, 53, 50, 48, 48, 48], B1152000),
      (1500000, [49, 53, 48, 48, 48, 48, 48], B1500000),
      (2000000, [50, 48, 48, 48, 48, 48, 48], B2000000),
      (2500000, [50, 53, 48, 48, 48, 48, 48], B2500000),
      (3000000, [51, 48, 48, 48, 48, 48, 48], B3000000),
      (3500000, [51, 53, 48, 48, 48, 48, 48], B3500000),
      (4000000, [52, 48, 48, 48, 48, 48, 48], B4000000)] : List (Nat × List Nat × speed_t)),
      decimal p.1 = p.2.1 ∧ parse_speed ULONG_MAX p.2.1 = p.2.2) ∧
    parse_speed ULONG_MAX [57, 54, 48, 48] = B9600 ∧
    parse_speed ULONG_MAX [52, 48, 48, 48, 48, 48, 48] = B4000000 := by
  have hall : ∀ p : Nat × List Nat × speed_t,
      (decimal p.1 = p.2.1 ∧ p.2.1 ≠ [] ∧ (∀ c ∈ p.2.1, isdigit c = true) ∧
        digitsValue p.2.1 ≤ 4000000 ∧ lookup (digitsValue p.2.1) v2s = p.2.2) →
      decimal p.1 = p.2.1 ∧ parse_speed ULONG_MAX p.2.1 = p.2.2 := by
    intro p hp
    obtain ⟨hdec, hne, hd, hle, hlk⟩ := hp
    have hfit : digitsValue p.2.1 ≤ ULONG_MAX := by omega
    have hlen : p.2.1.length ≠ 0 := by
      intro h0; exact hne (List.length_eq_zero.mp h0)
    refine ⟨hdec, ?_⟩
    simp [parse_speed, strtoul_digits ULONG_MAX _ hne hd hfit, hlen, hlk]
  refine ⟨fun p hp => hall p (supported_rows p hp), ?_, ?_⟩
  · exact (hall (9600, [57, 54, 48, 48], B9600) (by decide)).2
  · exact (hall (4000000, [52, 48, 48, 48, 48, 48, 48], B4000000) (by decide)).2

/-- C1 at the 64-bit `unsigned long`: all 31 rows, "9600" and "4000000". -/
theorem parse_speed_supported_witness :
    4294967295 ≤ 2 ^ 64 - 1 ∧
    (∀ p ∈ ([(0, [48], B0), (50, [53, 48], B50), (75, [55, 53], B75),
      (110, [49, 49, 48], B110), (134, [49, 51, 52], B134), (150, [49, 53, 48], B150),
      (200, [50, 48, 48], B200), (300, [51, 48, 48], B300), (600, [54, 48, 48], B600),
      (1200, [49, 50, 48, 48], B1200), (1800, [49, 56, 48, 48], B1800),
      (2400, [50, 52, 48, 48], B2400), (4800, [52, 56, 48, 48], B4800),
      (9600, [57, 54, 48, 48], B9600), (19200, [49, 57, 50, 48, 48], B19200),
      (38400, [51, 56, 52, 48, 48], B38400), (57600, [53, 55, 54, 48, 48], B57600),
      (115200, [49, 49, 53, 50, 48, 48], B115200),
      (230400, [50, 51, 48, 52, 48, 48], B230400),
      (460800, [52, 54, 48, 56, 48, 48], B460800),
      (500000, [53, 48, 48, 48, 48, 48], B500000),
      (576000, [53, 55, 54, 48, 48, 48], B576000),
      (921600, [57, 50, 49, 54, 48, 48], B921600),
      (1000000, [49, 48, 48, 48, 48, 48, 48], B1000000),
      (1152000, [49, 49, 53, 50, 48, 48, 48], B1152000),
      (1500000, [49, 53, 48, 48, 48, 48, 48], B1500000),
      (2000000, [50, 48, 48, 48, 48, 48, 48], B2000000),
      (2500000, [50, 53, 48, 48, 48, 48, 48], B2500000),
      (3000000, [51, 48, 48, 48, 48, 48, 48], B3000000),
      (3500000, [51, 53, 48, 48, 48, 48, 48], B3500000),
      (4000000, [52, 48, 48, 48, 48, 48, 48], B4000000)] : List (Nat × List Nat × speed_t)),
      decimal p.1 = p.2.1 ∧ parse_speed (2 ^ 64 - 1) p.2.1 = p.2.2) ∧
    parse_speed (2 ^ 64 - 1) [57, 54, 48, 48] = B9600 ∧
    parse_speed (2 ^ 64 - 1) [52, 48, 48, 48, 48, 48, 48] = B4000000 :=
  ⟨by decide, parse_speed_supported (2 ^ 64 - 1) (by decide)⟩

/-- The lookup loop ends in `B0` when every row that matches carries `B0`. -/
theorem lookup_eq_B0 (val : Nat) :
    ∀ rows : List (Nat × speed_t), (∀ p ∈ rows, p.1 = val → p.2 = B0) → lookup val rows = B0
  | [], _ => rfl
  | (v, sp) :: rows, h => by
    by_cases hv : v = val
    · simpa [lookup, hv] using h (v, sp) (List.mem_cons_self _ _) hv
    · have ih := lookup_eq_B0 val rows (fun p hp => h p (List.mem_cons_of_mem _ hp))
      simp [lookup, hv, ih]

theorem v2s_zero_row : ∀ p ∈ v2s, p.1 = 0 → p.2 = B0 := by decide

/-- C2, refuted as stated: "9600x" is not one of the supported rate strings, yet
`parse_speed` returns `B9600` for it, not the sentinel: `strtoul` stops at the `x`
and line 281 does not look at what is left. -/
theorem parse_speed_trailing_counterexample :
    [57, 54, 48, 48, 120] ∉ rateStrings ∧
      parse_speed (2 ^ 64 - 1) [57, 54, 48, 48, 120] = B9600 ∧ B9600 ≠ B0 := by
  decide

/-- C2, amended: `parse_speed` returns the sentinel `B0` for every string on which
`strtoul` sets `errno` (overflow) or consumes nothing (no digits), and for every
string whose converted value is not a nonzero rate of the table. -/
theorem parse_speed_invalid (ULONG_MAX : Nat) (baud : List Nat)
    (h : (strtoul ULONG_MAX baud).errnoSet = true ∨ (strtoul ULONG_MAX baud).endOff = 0 ∨
      ∀ p ∈ v2s, p.1 = (strtoul ULONG_MAX baud).val → p.1 = 0) :
    parse_speed ULONG_MAX baud = B0 := by
  rcases h with h | h | h
  · simp [parse_speed, h]
  · simp [parse_speed, h]
  · have hl : lookup (strtoul ULONG_MAX baud).val v2s = B0 :=
      lookup_eq_B0 _ v2s (fun p hp hv => v2s_zero_row p hp (h p hp hv))
    simp [parse_speed, hl]

/-- C2 amended, at "9601" (a value absent from the table). -/
theorem parse_speed_invalid_witness :
    (∀ p ∈ v2s, p.1 = (strtoul (2 ^ 64 - 1) [57, 54, 48, 49]).val → p.1 = 0) ∧
      parse_speed (2 ^ 64 - 1) [57, 54, 48, 49] = B0 :=
  ⟨by decide, parse_speed_invalid (2 ^ 64 - 1) [57, 54, 48, 49] (Or.inr (Or.inr (by decide)))⟩

end Getty

/-! ## Theorems: getty -/

namespace Getty

theorem CTL_U : CTL 85 = 21 := by decide

theorem readch_byte {c : Nat} (h : c < 256) : readch (ReadResult.byte c) = Readch.ch c := by
  have h2 : c &&& (2 ^ 8 - 1) = c := Nat.and_pow_two_sub_one_of_lt_two_pow (n := 8) h
  have h3 : c &&& 255 = c := h2
  simp [readch, h3]

/-- The inner loop on characters that are neither newline nor line-kill, followed
by a newline: the first `len - np` of them are stored from `np` on, the others are
dropped, and the loop stops at the newline. -/
theorem lineLoop_plain (fd : Int) (len : Nat) (rest : List ReadResult) :
    ∀ (l : List Nat) (st : GState), st.np ≤ len →
      (∀ c ∈ l, c < 256 ∧ c ≠ 10 ∧ c ≠ 21) →
      lineLoop fd len (bytes l ++ ReadResult.byte 10 :: rest) st =
        (LineStop.newline rest,
          { np := min (st.np + l.length) len,
            mem := pokes st.mem st.np (l.take (len - st.np)),
            trace := st.trace ++ storeEvents st.np (l.take (len - st.np)) })
  | [], st, hnp, _ => by
    cases st with
    | mk np mem trace =>
      simp only [] at hnp
      simp [bytes, lineLoop, readch_byte, pokes, storeEvents, Nat.min_eq_left hnp]
  | c :: l, st, hnp, hl => by
    cases st with
    | mk np mem trace =>
      simp only [] at hnp
      obtain ⟨hc, h10, h21⟩ := hl c (List.mem_cons_self c l)
      have hl2 : ∀ d ∈ l, d < 256 ∧ d ≠ 10 ∧ d ≠ 21 :=
        fun d hd => hl d (List.mem_cons_of_mem c hd)
      by_cases hlt : np < len
      · have ih := lineLoop_plain fd len rest l
          { np := np + 1, mem := poke mem np c, trace := trace ++ [Event.store np c] }
          (by simpa using hlt) hl2
        have htake : len - np = (len - (np + 1)) + 1 := by omega
        have hb : bytes (c :: l) = ReadResult.byte c :: bytes l := rfl
        rw [hb, List.cons_append, lineLoop, readch_byte hc]
        simp only [h10, CTL_U, h21, if_false, hlt, if_true, GState.store]
        rw [ih, htake, List.take_succ_cons]
        simp only [pokes, storeEvents, List.length_cons, List.append_assoc, List.singleton_append]
        have hmin : min (np + 1 + l.length) len = min (np + (l.length + 1)) len := by
          congr 1; omega
        rw [hmin]
      · have hnl : np = len := by omega
        have ih := lineLoop_plain fd len rest l
          { np := np, mem := mem, trace := trace } (by simpa using hnp) hl2
        have hb : bytes (c :: l) = ReadResult.byte c :: bytes l := rfl
        rw [hb, List.cons_append, lineLoop, readch_byte hc]
        simp only [h10, CTL_U, h21, if_false, hlt]
        rw [ih]
        subst hnl
        simp [pokes, storeEvents]

theorem pokes_below : ∀ (cs : List Nat) (mem : Nat → Nat) (i j : Nat), j < i →
    pokes mem i cs j = mem j
  | [], _, _, _, _ => rfl
  | c :: cs, mem, i, j, h => by
    have hne : j ≠ i := by omega
    rw [pokes, pokes_below cs (poke mem i c) (i + 1) j (by omega)]
    simp [poke, hne]

theorem pokes_at : ∀ (cs : List Nat) (mem : Nat → Nat) (i k : Nat), k < cs.length →
    pokes mem i cs (i + k) = cs.getD k 0
  | [], _, _, _, h => by simp at h
  | c :: cs, mem, i, 0, _ => by
    show pokes (poke mem i c) (i + 1) cs i = (c :: cs).getD 0 0
    rw [pokes_below cs (poke mem i c) (i + 1) i (by omega)]
    simp [poke]
  | c :: cs, mem, i, k + 1, h => by
    have hk : k < cs.length := by simpa using h
    have hidx : i + (k + 1) = (i + 1) + k := by omega
    rw [pokes, hidx, pokes_at cs (poke mem i c) (i + 1) k hk]
    simp

/-- A buffer whose first cells hold the nonzero bytes `xs`, followed by a
terminator inside the buffer, holds the username `xs`. -/
theorem username_of_cells (mem : Nat → Nat) (len : Nat) (xs : List Nat)
    (hlen : xs.length < len) (h0 : ∀ c ∈ xs, c ≠ 0)
    (hx : ∀ k, k < xs.length → mem k = xs.getD k 0) (hz : mem xs.length = 0) :
    username mem len = xs := by
  obtain ⟨m, hm⟩ : ∃ m, len = xs.length + (m + 1) := ⟨len - xs.length - 1, by omega⟩
  have hfirst : (List.range xs.length).map mem = xs := by
    apply List.ext_getElem
    · simp
    · intro k h1 h2
      have hk : k < xs.length := h2
      simp only [List.getElem_map, List.getElem_range, hx k hk]
      exact List.getD_eq_getElem _ _ hk
  have hpos : ∀ a ∈ xs, (fun c => c != 0) a = true := by
    intro a ha
    simpa using h0 a ha
  rw [username, hm, List.range_add, List.map_append, hfirst, List.range_succ_eq_map]
  simp only [cstr, List.map_cons, List.map_map, Nat.add_zero]
  rw [List.takeWhile_append_of_pos hpos, List.takeWhile_cons_of_neg (by simp [hz])]
  simp

/-- The username left by a line that buffered the first `len` characters of `l`. -/
theorem username_finalMem (mem : Nat → Nat) (l : List Nat) (len : Nat) (hlen : 1 ≤ len)
    (h0 : ∀ c ∈ l, c ≠ 0) : username (finalMem mem l len) len = l.take (len - 1) := by
  apply username_of_cells
  · simp only [List.length_take]; omega
  · intro c hc; exact h0 c (List.mem_of_mem_take hc)
  · intro k hk
    simp only [List.length_take] at hk
    have h1 : k ≠ len - 1 := by omega
    have h2 : k ≠ min l.length len := by omega
    have h3 : k < (l.take len).length := by simp only [List.length_take]; omega
    have h4 := pokes_at (l.take len) mem 0 k h3
    rw [Nat.zero_add] at h4
    simp only [finalMem, poke, h1, h2, if_false, h4]
    rw [List.getD_eq_getElem _ _ h3, List.getD_eq_getElem _ _ (by simp only [List.length_take]; omega)]
    simp [List.getElem_take]
  · simp only [List.length_take, finalMem, poke]
    by_cases h : min (len - 1) l.length = len - 1
    · simp [h]
    · have h5 : min (len - 1) l.length = min l.length len := by omega
      simp [h, h5]

theorem eraseLoop_np (fd : Int) : ∀ (n : Nat) (st : GState), (eraseLoop fd n st).np = 0
  | 0, _ => rfl
  | n + 1, st => by rw [eraseLoop, eraseLoop_np fd n]

theorem eraseLoop_mem (fd : Int) : ∀ (n : Nat) (st : GState), (eraseLoop fd n st).mem = st.mem
  | 0, _ => rfl
  | n + 1, st => by rw [eraseLoop, eraseLoop_mem fd n]; rfl

/-- The erase loop started with `n` buffered characters writes the erase sequence
`n` times to `fd`. -/
theorem eraseLoop_trace (fd : Int) : ∀ (n : Nat) (st : GState),
    (eraseLoop fd n st).trace = st.trace ++ List.replicate n (Event.write fd [8, 32, 8])
  | 0, _ => by simp [eraseLoop]
  | n + 1, st => by
    rw [eraseLoop, eraseLoop_trace fd n]
    simp [GState.emit, List.replicate_succ]

theorem issueCount_append : ∀ (a b : List Event),
    issueCount (a ++ b) = issueCount a + issueCount b
  | [], b => by simp [issueCount]
  | Event.issue _ _ :: a, b => by
    have ih := issueCount_append a b
    rw [List.cons_append, issueCount, issueCount, ih]; omega
  | Event.write _ _ :: a, b => by
    have ih := issueCount_append a b
    rw [List.cons_append, issueCount, issueCount, ih]
  | Event.store _ _ :: a, b => by
    have ih := issueCount_append a b
    rw [List.cons_append, issueCount, issueCount, ih]

theorem issueCount_edits : ∀ (ext : List Event), (∀ e ∈ ext, isEdit e = true) →
    issueCount ext = 0
  | [], _ => rfl
  | Event.issue t f :: ext, h => by
    have := h (Event.issue t f) (List.mem_cons_self _ _)
    simp [isEdit] at this
  | Event.write _ _ :: ext, h => by
    simp only [issueCount]
    exact issueCount_edits ext (fun e he => h e (List.mem_cons_of_mem _ he))
  | Event.store _ _ :: ext, h => by
    simp only [issueCount]
    exact issueCount_edits ext (fun e he => h e (List.mem_cons_of_mem _ he))

theorem issueCount_storeEvents : ∀ (cs : List Nat) (i : Nat), issueCount (storeEvents i cs) = 0
  | [], _ => rfl
  | c :: cs, i => by simp only [storeEvents, issueCount, issueCount_storeEvents cs]

theorem issueCount_blankRounds (tty : List Nat) (fd : Int) :
    ∀ k, issueCount (blankRounds tty fd k) = k
  | 0 => rfl
  | k + 1 => by simp only [blankRounds, issueCount, issueCount_blankRounds tty fd k]

theorem exitNewline_not_edit : isEdit exitNewline = false := by decide

theorem exitNewline_not_mem_blankRounds (tty : List Nat) (fd : Int) :
    ∀ k, exitNewline ∉ blankRounds tty fd k
  | 0 => by simp [blankRounds]
  | k + 1 => by
    have ih := exitNewline_not_mem_blankRounds tty fd k
    intro hmem
    rcases List.mem_cons.mp hmem with h | h
    · exact absurd h (by simp [exitNewline])
    · rcases List.mem_cons.mp h with h | h
      · exact absurd h (by simp [exitNewline])
      · exact ih h

/-- The inner loop on characters none of which is a newline: the loop is still
running afterwards, and has added only stores and erase sequences to the trace. -/
theorem lineLoop_skip (fd : Int) (len : Nat) :
    ∀ (pre : List Nat) (st : GState), (∀ c ∈ pre, c < 256 ∧ c ≠ 10) →
      ∃ st2 : GState, (∀ r, lineLoop fd len (bytes pre ++ r) st = lineLoop fd len r st2) ∧
        ∃ ext, st2.trace = st.trace ++ ext ∧ ∀ e ∈ ext, isEdit e = true
  | [], st, _ => ⟨st, fun _ => rfl, [], by simp, by simp⟩
  | c :: pre, st, h => by
    obtain ⟨hc, h10⟩ := h c (List.mem_cons_self c pre)
    have hpre : ∀ d ∈ pre, d < 256 ∧ d ≠ 10 := fun d hd => h d (List.mem_cons_of_mem c hd)
    have hb : bytes (c :: pre) = ReadResult.byte c :: bytes pre := rfl
    by_cases h21 : c = 21
    · obtain ⟨st2, hrun, ext, htr, hed⟩ := lineLoop_skip fd len pre (eraseLoop fd st.np st) hpre
      refine ⟨st2, ?_, List.replicate st.np (Event.write fd [8, 32, 8]) ++ ext, ?_, ?_⟩
      · intro r
        rw [hb, List.cons_append, lineLoop, readch_byte hc]
        simp only [h10, CTL_U, h21, if_false, if_true]
        exact hrun r
      · rw [htr, eraseLoop_trace, List.append_assoc]
      · intro e he
        rcases List.mem_append.mp he with he | he
        · rw [List.eq_of_mem_replicate he]; rfl
        · exact hed e he
    · by_cases hlt : st.np < len
      · obtain ⟨st2, hrun, ext, htr, hed⟩ :=
          lineLoop_skip fd len pre { (st.store st.np c) with np := st.np + 1 } hpre
        refine ⟨st2, ?_, Event.store st.np c :: ext, ?_, ?_⟩
        · intro r
          rw [hb, List.cons_append, lineLoop, readch_byte hc]
          simp only [h10, CTL_U, h21, if_false, hlt, if_true]
          exact hrun r
        · rw [htr]; simp [GState.store]
        · intro e he
          rcases List.mem_cons.mp he with he | he
          · rw [he]; rfl
          · exact hed e he
      · obtain ⟨st2, hrun, ext, htr, hed⟩ := lineLoop_skip fd len pre st hpre
        refine ⟨st2, ?_, ext, htr, hed⟩
        intro r
        rw [hb, List.cons_append, lineLoop, readch_byte hc]
        simp only [h10, CTL_U, h21, if_false, hlt]
        exact hrun r

theorem afterBlanks_trace (tty : List Nat) (fd : Int) : ∀ (k : Nat) (st : GState),
    (afterBlanks tty fd k st).trace = st.trace ++ blankRounds tty fd k
  | 0, st => by simp [afterBlanks, blankRounds]
  | k + 1, st => by
    rw [afterBlanks, afterBlanks_trace tty fd k]
    simp [blankRound, GState.store, GState.emit, blankRounds]

/-- Rounds of the outer loop that read a bare newline: each calls `issue`, stores
the terminator at `name[0]`, finds the name blank and goes round again. -/
theorem gettyLoop_blanks (fd : Int) (tty : List Nat) (len : Nat) :
    ∀ (k f : Nat) (r : List ReadResult) (st : GState),
      gettyLoop fd tty len (k + f) (bytes (List.replicate k 10) ++ r) st =
        gettyLoop fd tty len f r (afterBlanks tty fd k st)
  | 0, f, r, st => by simp [bytes, afterBlanks]
  | k + 1, f, r, st => by
    have hf : k + 1 + f = (k + f) + 1 := by omega
    have hb : bytes (List.replicate (k + 1) 10) ++ r =
        ReadResult.byte 10 :: (bytes (List.replicate k 10) ++ r) := by
      simp [bytes, List.replicate_succ]
    have h10 : (10 : Nat) < 256 := by decide
    rw [hf, hb, gettyLoop, lineLoop, readch_byte h10]
    simp only [if_true, GState.store, poke]
    rw [gettyLoop_blanks fd tty len k f r]
    rfl

/-- A round of the outer loop whose inner loop stops at a newline with the first
`len` characters of a non-empty `l` buffered: the name is not blank and the loop
is left. -/
theorem gettyLoop_of_line (fd : Int) (tty : List Nat) (len f : Nat)
    (input rest : List ReadResult) (st : GState) (l : List Nat) (m : Nat → Nat)
    (tr : List Event) (hne : l ≠ []) (h0 : ∀ c ∈ l, c ≠ 0) (hlen : 1 ≤ len)
    (h : lineLoop fd len input { (st.emit (Event.issue tty fd)) with np := 0 } =
      (LineStop.newline rest,
        { np := min l.length len, mem := pokes m 0 (l.take len), trace := tr })) :
    gettyLoop fd tty len (f + 1) input st =
      (Outcome.returned,
        { np := min l.length len,
          mem := poke (pokes m 0 (l.take len)) (min l.length len) 0,
          trace := tr ++ [Event.store (min l.length len) 0] }) := by
  obtain ⟨c, t, rfl⟩ := List.exists_cons_of_ne_nil hne
  have hc : c ≠ 0 := h0 c (List.mem_cons_self c t)
  have hmin : min (c :: t).length len ≠ 0 := by
    simp only [List.length_cons]; omega
  have htk : ((c :: t).take len).length > 0 := by
    simp only [List.length_take, List.length_cons]; omega
  have hcell := pokes_at ((c :: t).take len) m 0 0 htk
  obtain ⟨n, hn⟩ : ∃ n, len = n + 1 := ⟨len - 1, by omega⟩
  have hfirst : pokes m 0 ((c :: t).take len) 0 = c := by
    rw [Nat.add_zero] at hcell
    rw [hcell, hn]; simp
  rw [gettyLoop, h]
  simp only [GState.store, poke]
  rw [if_neg (Ne.symm hmin), hfirst, if_neg hc]

/-- The body of `getty` around its outer loop: `*name = 0` on entry and
`name[len - 1] = 0` at the return. -/
theorem getty_unfold (fd : Int) (tty : List Nat) (name : Nat → Nat) (len : Nat)
    (r : List ReadResult) :
    getty fd tty name len r =
      match gettyLoop fd tty len (r.length + 1) r
          (GState.store { np := 0, mem := name, trace := [] } 0 0) with
      | (Outcome.returned, st) => (Outcome.returned, st.store (len - 1) 0)
      | x => x := rfl

/-- The run of `getty` on a stream that starts with `k` bare newlines goes through
`k` blank rounds before it reads the rest. -/
theorem getty_after_blanks (fd : Int) (tty : List Nat) (name : Nat → Nat) (len k : Nat)
    (r : List ReadResult) :
    getty fd tty name len (bytes (List.replicate k 10) ++ r) =
      match gettyLoop fd tty len (r.length + 1) r
          (afterBlanks tty fd k (GState.store { np := 0, mem := name, trace := [] } 0 0)) with
      | (Outcome.returned, st) => (Outcome.returned, st.store (len - 1) 0)
      | x => x := by
  have hlen : (bytes (List.replicate k 10) ++ r).length + 1 = k + (r.length + 1) := by
    simp [bytes]; omega
  simp only [getty]
  rw [hlen, gettyLoop_blanks]

/-- The run of `getty` on `k` bare newlines followed by a line of characters that
are not newline, line-kill or NUL: state and trace at the return. -/
theorem getty_line (fd : Int) (tty : List Nat) (name : Nat → Nat) (len k : Nat)
    (l : List Nat) (rest : List ReadResult) (hlen : 1 ≤ len) (hne : l ≠ [])
    (hl : ∀ c ∈ l, c < 256 ∧ c ≠ 10 ∧ c ≠ 21 ∧ c ≠ 0) :
    getty fd tty name len
        (bytes (List.replicate k 10) ++ (bytes l ++ ReadResult.byte 10 :: rest)) =
      (Outcome.returned,
        { np := min l.length len,
          mem := finalMem
            (afterBlanks tty fd k (GState.store { np := 0, mem := name, trace := [] } 0 0)).mem
            l len,
          trace := Event.store 0 0 :: (blankRounds tty fd k ++ Event.issue tty fd ::
            (storeEvents 0 (l.take len) ++
              [Event.store (min l.length len) 0, Event.store (len - 1) 0])) }) := by
  have hplain : ∀ c ∈ l, c < 256 ∧ c ≠ 10 ∧ c ≠ 21 := fun c hc =>
    ⟨(hl c hc).1, (hl c hc).2.1, (hl c hc).2.2.1⟩
  have h0 : ∀ c ∈ l, c ≠ 0 := fun c hc => (hl c hc).2.2.2
  rw [getty_after_blanks]
  generalize hst : afterBlanks tty fd k (GState.store { np := 0, mem := name, trace := [] } 0 0)
    = st
  have htr : st.trace = Event.store 0 0 :: blankRounds tty fd k := by
    rw [← hst, afterBlanks_trace]; rfl
  have hline := lineLoop_plain fd len rest l
    { (st.emit (Event.issue tty fd)) with np := 0 } (Nat.zero_le len) hplain
  simp only [Nat.zero_add, Nat.sub_zero] at hline
  rw [gettyLoop_of_line fd tty len _ _ rest st l _ _ hne h0 hlen hline]
  simp only [GState.store, GState.emit, finalMem, htr]
  simp

/-- C3, at the failing input: with the buffer of `main` (`len` = 30) and 30
characters typed before the newline, `getty` returns after a store of the
terminator at index 30, one past the last cell of the buffer: the guard of line
198 lets `np` reach `name + len` and line 202 stores through it. -/
theorem getty_store_past_buffer :
    (getty 0 [] (fun _ => 0) NAME_SIZE (bytes (List.replicate 30 97 ++ [10]))).1 =
        Outcome.returned ∧
      Event.store 30 0 ∈
        (getty 0 [] (fun _ => 0) NAME_SIZE (bytes (List.replicate 30 97 ++ [10]))).2.trace ∧
      ¬ ∀ i ∈ storeIndices
          (getty 0 [] (fun _ => 0) NAME_SIZE (bytes (List.replicate 30 97 ++ [10]))).2.trace,
        i < NAME_SIZE := by
  decide

/-- C5: when a line, read first or after `k` bare newlines, holds a line-kill code
followed by a non-empty run `post` of fewer than `len` characters (none of them
newline, line-kill or NUL) and the newline, `getty` returns with the username
`post`, whatever was typed on the line before that line-kill. -/
theorem getty_line_kill (fd : Int) (tty : List Nat) (name : Nat → Nat) (len k : Nat)
    (pre post : List Nat) (rest : List ReadResult)
    (hpre : ∀ c ∈ pre, c < 256 ∧ c ≠ 10)
    (hpost : ∀ c ∈ post, c < 256 ∧ c ≠ 10 ∧ c ≠ 21 ∧ c ≠ 0)
    (hne : post ≠ []) (hlen : post.length < len) :
    (getty fd tty name len (bytes (List.replicate k 10) ++
        (bytes pre ++ ReadResult.byte 21 :: (bytes post ++ ReadResult.byte 10 :: rest)))).1 =
      Outcome.returned ∧
    username (getty fd tty name len (bytes (List.replicate k 10) ++
        (bytes pre ++ ReadResult.byte 21 :: (bytes post ++ ReadResult.byte 10 :: rest)))).2.mem
      len = post := by
  have hplain : ∀ c ∈ post, c < 256 ∧ c ≠ 10 ∧ c ≠ 21 := fun c hc =>
    ⟨(hpost c hc).1, (hpost c hc).2.1, (hpost c hc).2.2.1⟩
  have h0 : ∀ c ∈ post, c ≠ 0 := fun c hc => (hpost c hc).2.2.2
  rw [getty_after_blanks]
  generalize afterBlanks tty fd k (GState.store { np := 0, mem := name, trace := [] } 0 0) = st
  obtain ⟨st2, hrun, -⟩ := lineLoop_skip fd len pre
    { (st.emit (Event.issue tty fd)) with np := 0 } hpre
  have h21 : (21 : Nat) < 256 := by decide
  have hline := lineLoop_plain fd len rest post (eraseLoop fd st2.np st2)
    (by rw [eraseLoop_np]; exact Nat.zero_le len) hplain
  rw [eraseLoop_np] at hline
  simp only [Nat.zero_add, Nat.sub_zero] at hline
  have hwhole : lineLoop fd len
      (bytes pre ++ ReadResult.byte 21 :: (bytes post ++ ReadResult.byte 10 :: rest))
      { (st.emit (Event.issue tty fd)) with np := 0 } =
      (LineStop.newline rest,
        { np := min post.length len,
          mem := pokes (eraseLoop fd st2.np st2).mem 0 (post.take len),
          trace := (eraseLoop fd st2.np st2).trace ++ storeEvents 0 (post.take len) }) := by
    rw [hrun, lineLoop, readch_byte h21]
    simp only [CTL_U, if_true]
    rw [if_neg (by decide)]
    exact hline
  rw [gettyLoop_of_line fd tty len _ _ rest st post _ _ hne h0 (by omega) hwhole]
  refine ⟨rfl, ?_⟩
  have hu := username_finalMem (eraseLoop fd st2.np st2).mem post len (by omega) h0
  rw [List.take_of_length_le (by omega)] at hu
  exact hu

/-- C5 at "ab", line-kill, "c", newline: the username is "c". -/
theorem getty_line_kill_witness :
    ((∀ c ∈ [97, 98], c < 256 ∧ c ≠ 10) ∧
      (∀ c ∈ [99], c < 256 ∧ c ≠ 10 ∧ c ≠ 21 ∧ c ≠ 0) ∧ [99] ≠ [] ∧ [99].length < 30) ∧
    username (getty 0 [] (fun _ => 0) 30 (bytes (List.replicate 0 10) ++
      (bytes [97, 98] ++ ReadResult.byte 21 :: (bytes [99] ++ ReadResult.byte 10 :: [])))).2.mem
      30 = [99] :=
  ⟨by decide,
    (getty_line_kill 0 [] (fun _ => 0) 30 0 [97, 98] [99] []
      (by decide) (by decide) (by decide) (by decide)).2⟩

/-- C6: on `k` bare newlines followed by a line with a non-empty username `l`
(fewer than `len` characters, none of them newline, line-kill or NUL), `getty`
calls `issue` `k + 1` times, once at the start of each round before the line is
read, goes round again after each bare newline and returns after the line of `l`
with the username `l`. -/
theorem getty_blank_lines (fd : Int) (tty : List Nat) (name : Nat → Nat) (len k : Nat)
    (l : List Nat) (rest : List ReadResult)
    (hl : ∀ c ∈ l, c < 256 ∧ c ≠ 10 ∧ c ≠ 21 ∧ c ≠ 0) (hne : l ≠ [])
    (hlen : l.length < len) :
    (getty fd tty name len
        (bytes (List.replicate k 10) ++ (bytes l ++ ReadResult.byte 10 :: rest))).1 =
      Outcome.returned ∧
    username (getty fd tty name len
        (bytes (List.replicate k 10) ++ (bytes l ++ ReadResult.byte 10 :: rest))).2.mem len =
      l ∧
    issueCount (getty fd tty name len
        (bytes (List.replicate k 10) ++ (bytes l ++ ReadResult.byte 10 :: rest))).2.trace =
      k + 1 ∧
    (getty fd tty name len
        (bytes (List.replicate k 10) ++ (bytes l ++ ReadResult.byte 10 :: rest))).2.trace =
      Event.store 0 0 :: (blankRounds tty fd k ++ Event.issue tty fd ::
        (storeEvents 0 l ++ [Event.store l.length 0, Event.store (len - 1) 0])) := by
  have h0 : ∀ c ∈ l, c ≠ 0 := fun c hc => (hl c hc).2.2.2
  rw [getty_line fd tty name len k l rest (by omega) hne hl]
  have hmin : min l.length len = l.length := by omega
  have htake : l.take len = l := List.take_of_length_le (by omega)
  refine ⟨rfl, ?_, ?_, ?_⟩
  · have hu := username_finalMem
      (afterBlanks tty fd k (GState.store { np := 0, mem := name, trace := [] } 0 0)).mem
      l len (by omega) h0
    rw [List.take_of_length_le (by omega)] at hu
    exact hu
  · simp only [issueCount, issueCount_append, issueCount_blankRounds, issueCount_storeEvents]
  · simp only [hmin, htake]

/-- C6 at two bare newlines followed by "ab": three calls of `issue`. -/
theorem getty_blank_lines_witness :
    ((∀ c ∈ [97, 98], c < 256 ∧ c ≠ 10 ∧ c ≠ 21 ∧ c ≠ 0) ∧ [97, 98] ≠ [] ∧
      [97, 98].length < 30) ∧
    issueCount (getty 0 [] (fun _ => 0) 30
      (bytes (List.replicate 2 10) ++ (bytes [97, 98] ++ ReadResult.byte 10 :: []))).2.trace =
        2 + 1 :=
  ⟨by decide,
    (getty_blank_lines 0 [] (fun _ => 0) 30 2 [97, 98] []
      (by decide) (by decide) (by decide)).2.2.1⟩

theorem exitNewline_not_mem_edits (ext : List Event) (h : ∀ e ∈ ext, isEdit e = true) :
    exitNewline ∉ ext := by
  intro hmem
  have := h _ hmem
  rw [exitNewline_not_edit] at this
  exact absurd this (by decide)

/-- A round of the outer loop that meets end of input before any newline: the
process exits with code 0, and the round has added the call of `issue`, line
editing events and, last, the write of one newline. -/
theorem gettyLoop_no_newline (fd : Int) (tty : List Nat) (len f : Nat)
    (rest : List ReadResult) (l : List Nat) (st : GState)
    (hl : ∀ c ∈ l, c < 256 ∧ c ≠ 10) :
    ∃ st2 ext, gettyLoop fd tty len (f + 1) (bytes l ++ ReadResult.eof :: rest) st =
        (Outcome.exited 0, st2) ∧
      st2.trace = st.trace ++ Event.issue tty fd :: ext ++ [exitNewline] ∧
      ∀ e ∈ ext, isEdit e = true := by
  obtain ⟨st2, hrun, ext, hext, hed⟩ := lineLoop_skip fd len l
    { (st.emit (Event.issue tty fd)) with np := 0 } hl
  refine ⟨{ st2 with trace := st2.trace ++ [exitNewline] }, ext, ?_, ?_, hed⟩
  · rw [gettyLoop, hrun, lineLoop]
    rfl
  · simp only [hext, GState.emit]
    simp

/-- The outer loop on a stream of bytes followed by end of input, with fuel above
the number of bytes: either `getty` returns, or the process exits with code 0
and its last event is the only write of a newline. -/
theorem gettyLoop_eof (fd : Int) (tty : List Nat) (len : Nat) (rest : List ReadResult) :
    ∀ (n : Nat) (l : List Nat) (st : GState), l.length ≤ n → (∀ c ∈ l, c < 256) →
      exitNewline ∉ st.trace →
      (gettyLoop fd tty len (n + 1) (bytes l ++ ReadResult.eof :: rest) st).1 =
          Outcome.returned ∨
        ((gettyLoop fd tty len (n + 1) (bytes l ++ ReadResult.eof :: rest) st).1 =
            Outcome.exited 0 ∧
          ∃ t, (gettyLoop fd tty len (n + 1) (bytes l ++ ReadResult.eof :: rest) st).2.trace =
            t ++ [exitNewline] ∧ exitNewline ∉ t) := by
  intro n
  induction n with
  | zero =>
    intro l st hn _ htr
    have hl0 : l = [] := List.length_eq_zero.mp (Nat.le_zero.mp hn)
    subst hl0
    obtain ⟨st2, ext, hrun, htr2, hed⟩ := gettyLoop_no_newline fd tty len 0 rest [] st
      (by simp)
    right
    rw [hrun]
    refine ⟨rfl, st.trace ++ Event.issue tty fd :: ext, htr2, ?_⟩
    intro hmem
    rcases List.mem_append.mp hmem with h | h
    · exact htr h
    · rcases List.mem_cons.mp h with h | h
      · exact absurd h (by simp [exitNewline])
      · exact exitNewline_not_mem_edits ext hed h
  | succ n ih =>
    intro l st hn hl htr
    by_cases h10 : 10 ∈ l
    · obtain ⟨l1, l2, hsplit, hl1⟩ := List.eq_append_cons_of_mem h10
      have hl1b : ∀ c ∈ l1, c < 256 ∧ c ≠ 10 := by
        intro c hc
        refine ⟨hl c (by rw [hsplit]; exact List.mem_append_left _ hc), ?_⟩
        intro h; rw [h] at hc; exact hl1 hc
      have hl2b : ∀ c ∈ l2, c < 256 := by
        intro c hc
        exact hl c (by rw [hsplit]; exact List.mem_append_right _ (List.mem_cons_of_mem _ hc))
      have hlen2 : l2.length ≤ n := by
        rw [hsplit] at hn
        simp only [List.length_append, List.length_cons] at hn
        omega
      obtain ⟨st2, hrun, ext, hext, hed⟩ := lineLoop_skip fd len l1
        { (st.emit (Event.issue tty fd)) with np := 0 } hl1b
      have hin : bytes l ++ ReadResult.eof :: rest =
          bytes l1 ++ ReadResult.byte 10 :: (bytes l2 ++ ReadResult.eof :: rest) := by
        rw [hsplit]; simp [bytes]
      have htr3 : exitNewline ∉ (st2.store st2.np 0).trace := by
        simp only [GState.store, hext, GState.emit]
        intro hmem
        rcases List.mem_append.mp hmem with h | h
        · rcases List.mem_append.mp h with h | h
          · rcases List.mem_append.mp h with h | h
            · exact htr h
            · exact absurd (List.mem_singleton.mp h) (by simp [exitNewline])
          · exact exitNewline_not_mem_edits ext hed h
        · exact absurd (List.mem_singleton.mp h) (by simp [exitNewline])
      have h10lt : (10 : Nat) < 256 := by decide
      have hstep : gettyLoop fd tty len (n + 1 + 1) (bytes l ++ ReadResult.eof :: rest) st =
          if (st2.store st2.np 0).mem 0 = 0 then
            gettyLoop fd tty len (n + 1) (bytes l2 ++ ReadResult.eof :: rest)
              (st2.store st2.np 0)
          else (Outcome.returned, st2.store st2.np 0) := by
        rw [hin, gettyLoop, hrun, lineLoop, readch_byte h10lt]
        rfl
      rw [hstep]
      by_cases hblank : (st2.store st2.np 0).mem 0 = 0
      · rw [if_pos hblank]
        exact ih l2 (st2.store st2.np 0) hlen2 hl2b htr3
      · rw [if_neg hblank]
        exact Or.inl rfl
    · have hlb : ∀ c ∈ l, c < 256 ∧ c ≠ 10 := by
        intro c hc
        refine ⟨hl c hc, ?_⟩
        intro h; rw [h] at hc; exact h10 hc
      obtain ⟨st2, ext, hrun, htr2, hed⟩ := gettyLoop_no_newline fd tty len (n + 1) rest l st hlb
      right
      rw [hrun]
      refine ⟨rfl, st.trace ++ Event.issue tty fd :: ext, htr2, ?_⟩
      intro hmem
      rcases List.mem_append.mp hmem with h | h
      · exact htr h
      · rcases List.mem_cons.mp h with h | h
        · exact absurd h (by simp [exitNewline])
        · exact exitNewline_not_mem_edits ext hed h

/-- C7: when `read` returns zero bytes after `k` bare newlines and a (possibly
empty) unfinished line, `getty` does not return: the run ends with the process
exiting with code 0, the last event is the write of one newline to standard
output, no such write comes before it, and `issue` was called `k + 1` times.
And on every stream of bytes followed by end of input, a run that does not
return ends in that same way. -/
theorem getty_end_of_input (fd : Int) (tty : List Nat) (name : Nat → Nat) (len : Nat) :
    (∀ (k : Nat) (part : List Nat) (rest : List ReadResult),
      (∀ c ∈ part, c < 256 ∧ c ≠ 10) →
      (getty fd tty name len
          (bytes (List.replicate k 10) ++ (bytes part ++ ReadResult.eof :: rest))).1 =
        Outcome.exited 0 ∧
      ∃ t, (getty fd tty name len
          (bytes (List.replicate k 10) ++ (bytes part ++ ReadResult.eof :: rest))).2.trace =
          t ++ [exitNewline] ∧ exitNewline ∉ t ∧ issueCount t = k + 1) ∧
    (∀ (l : List Nat) (rest : List ReadResult), (∀ c ∈ l, c < 256) →
      (getty fd tty name len (bytes l ++ ReadResult.eof :: rest)).1 = Outcome.returned ∨
      ((getty fd tty name len (bytes l ++ ReadResult.eof :: rest)).1 = Outcome.exited 0 ∧
        ∃ t, (getty fd tty name len (bytes l ++ ReadResult.eof :: rest)).2.trace =
          t ++ [exitNewline] ∧ exitNewline ∉ t)) := by
  constructor
  · intro k part rest hp
    rw [getty_after_blanks]
    generalize hst :
      afterBlanks tty fd k (GState.store { np := 0, mem := name, trace := [] } 0 0) = st
    have htr : st.trace = Event.store 0 0 :: blankRounds tty fd k := by
      rw [← hst, afterBlanks_trace]; rfl
    obtain ⟨st2, ext, hrun, htr2, hed⟩ := gettyLoop_no_newline fd tty len
      (bytes part ++ ReadResult.eof :: rest).length rest part st hp
    rw [hrun]
    refine ⟨rfl, st.trace ++ Event.issue tty fd :: ext, htr2, ?_, ?_⟩
    · rw [htr]
      intro hmem
      rcases List.mem_append.mp hmem with h | h
      · rcases List.mem_cons.mp h with h | h
        · exact absurd h (by simp [exitNewline])
        · exact exitNewline_not_mem_blankRounds tty fd k h
      · rcases List.mem_cons.mp h with h | h
        · exact absurd h (by simp [exitNewline])
        · exact exitNewline_not_mem_edits ext hed h
    · rw [htr, issueCount_append]
      simp only [issueCount, issueCount_blankRounds, issueCount_edits ext hed]
  · intro l rest hl
    have h := gettyLoop_eof fd tty len rest (bytes l ++ ReadResult.eof :: rest).length l
      (GState.store { np := 0, mem := name, trace := [] } 0 0)
      (by simp [bytes]) hl
      (by simp [GState.store, exitNewline])
    rw [getty_unfold]
    rcases h with h | ⟨h, t, ht, hnt⟩
    · left
      generalize gettyLoop fd tty len ((bytes l ++ ReadResult.eof :: rest).length + 1)
        (bytes l ++ ReadResult.eof :: rest)
        (GState.store { np := 0, mem := name, trace := [] } 0 0) = r at h
      obtain ⟨o, st⟩ := r
      simp only at h
      subst h
      rfl
    · right
      generalize gettyLoop fd tty len ((bytes l ++ ReadResult.eof :: rest).length + 1)
        (bytes l ++ ReadResult.eof :: rest)
        (GState.store { np := 0, mem := name, trace := [] } 0 0) = r at h ht
      obtain ⟨o, st⟩ := r
      simp only at h ht
      subst h
      exact ⟨rfl, t, ht, hnt⟩

/-- C7 at the empty stream and in the middle of a line: exit code 0. -/
theorem getty_end_of_input_witness :
    (∀ c ∈ [97, 98], c < 256 ∧ c ≠ 10) ∧
    (getty 0 [] (fun _ => 0) 30
      (bytes (List.replicate 1 10) ++ (bytes [97, 98] ++ ReadResult.eof :: []))).1 =
        Outcome.exited 0 :=
  ⟨by decide, ((getty_end_of_input 0 [] (fun _ => 0) 30).1 1 [97, 98] [] (by decide)).1⟩

end Getty

/-! ## Theorems: parse -/

namespace Getty

/-- The pending literal span, written when `s` stands behind `pre`. -/
theorem bytes_span (fd : Int) (pre rest : List Nat) (s s0 : Nat) (hs : s = pre.length)
    (h : s0 ≤ s) :
    (WriteCall.span fd s0 ((s : Int) - (s0 : Int))).bytes (pre ++ rest) = pre.drop s0 := by
  subst hs
  have hn : ¬ ((pre.length : Int) - (s0 : Int) < 0) := by omega
  have ht : ((pre.length : Int) - (s0 : Int)).toNat = pre.length - s0 := by omega
  simp only [WriteCall.bytes, hn, if_false, ht]
  rw [List.drop_append_of_le_length h]
  exact List.take_left' (by simp)

/-- The write at `leave` after a trailing backslash has the length -1. -/
theorem bytes_leave (line : List Nat) (s : Nat) :
    (WriteCall.span 1 (s + 2) (((s + 1 : Nat) : Int) - ((s + 2 : Nat) : Int))).bytes line = [] := by
  have hn : ((s + 1 : Nat) : Int) - ((s + 2 : Nat) : Int) < 0 := by omega
  simp only [WriteCall.bytes, hn, if_true]

theorem directive_zero (gnu : Bool) (uts : utsname) (tty : List Nat) :
    directive gnu uts tty 0 = none := by
  cases gnu <;> rfl

theorem parseLoop_nil (gnu : Bool) (uts : utsname) (tty : List Nat) (fd : Int) (s s0 : Nat) :
    parseLoop gnu uts tty fd [] s s0 = [WriteCall.span 1 s0 ((s : Int) - (s0 : Int))] := by
  rw [parseLoop.eq_def]

theorem parseLoop_zero (gnu : Bool) (uts : utsname) (tty : List Nat) (fd : Int)
    (rest : List Nat) (s s0 : Nat) :
    parseLoop gnu uts tty fd (0 :: rest) s s0 =
      [WriteCall.span 1 s0 ((s : Int) - (s0 : Int))] := by
  rw [parseLoop.eq_def]; simp

theorem parseLoop_lit (gnu : Bool) (uts : utsname) (tty : List Nat) (fd : Int)
    (c : Nat) (rest : List Nat) (s s0 : Nat) (h0 : c ≠ 0) (h92 : c ≠ 92) :
    parseLoop gnu uts tty fd (c :: rest) s s0 = parseLoop gnu uts tty fd rest (s + 1) s0 := by
  rw [parseLoop.eq_def]; simp only [h0, h92, if_false]

theorem parseLoop_bs_nil (gnu : Bool) (uts : utsname) (tty : List Nat) (fd : Int)
    (s s0 : Nat) :
    parseLoop gnu uts tty fd [92] s s0 =
      [WriteCall.span fd s0 ((s : Int) - (s0 : Int)),
        WriteCall.span 1 (s + 2) (((s + 1 : Nat) : Int) - ((s + 2 : Nat) : Int))] := by
  rw [parseLoop.eq_def]; simp

theorem parseLoop_bs_dir (gnu : Bool) (uts : utsname) (tty : List Nat) (fd : Int)
    (d : Nat) (v rest : List Nat) (s s0 : Nat) (hd : directive gnu uts tty d = some v) :
    parseLoop gnu uts tty fd (92 :: d :: rest) s s0 =
      WriteCall.span fd s0 ((s : Int) - (s0 : Int)) :: print v ::
        parseLoop gnu uts tty fd rest (s + 2) (s + 2) := by
  rw [parseLoop.eq_def]; simp [hd]

theorem parseLoop_bs_zero (gnu : Bool) (uts : utsname) (tty : List Nat) (fd : Int)
    (rest : List Nat) (s s0 : Nat) :
    parseLoop gnu uts tty fd (92 :: 0 :: rest) s s0 =
      [WriteCall.span fd s0 ((s : Int) - (s0 : Int)),
        WriteCall.span 1 (s + 2) (((s + 1 : Nat) : Int) - ((s + 2 : Nat) : Int))] := by
  rw [parseLoop.eq_def]; simp [directive_zero]

theorem parseLoop_bs_other (gnu : Bool) (uts : utsname) (tty : List Nat) (fd : Int)
    (d : Nat) (rest : List Nat) (s s0 : Nat) (hd : directive gnu uts tty d = none)
    (h0 : d ≠ 0) :
    parseLoop gnu uts tty fd (92 :: d :: rest) s s0 =
      WriteCall.span fd s0 ((s : Int) - (s0 : Int)) ::
        parseLoop gnu uts tty fd rest (s + 2) s := by
  rw [parseLoop.eq_def]; simp [hd, h0]

theorem bytes_span_zero (fd : Int) (line : List Nat) :
    (WriteCall.span fd 0 (((0 : Nat) : Int) - ((0 : Nat) : Int))).bytes line = [] := by
  simp [WriteCall.bytes]

/-- The output of the loop of `parse` entered at offset `s` with the pending span
starting at `s0`: the pending bytes, then what `parse` writes for the rest of the
template taken alone. -/
theorem output_parseLoop (gnu : Bool) (uts : utsname) (tty : List Nat) (fd : Int) :
    ∀ (n : Nat) (rest pre : List Nat) (s s0 : Nat), rest.length ≤ n → s = pre.length →
      s0 ≤ s →
      output (pre ++ rest) (parseLoop gnu uts tty fd rest s s0) =
        pre.drop s0 ++ output rest (parseLoop gnu uts tty fd rest 0 0) := by
  intro n
  induction n with
  | zero =>
    intro rest pre s s0 hn hs h
    have hr : rest = [] := List.length_eq_zero.mp (Nat.le_zero.mp hn)
    subst hr
    simp only [parseLoop_nil, output, bytes_span 1 pre [] s s0 hs h, bytes_span_zero]
    simp
  | succ n ih =>
    intro rest pre s s0 hn hs h
    cases rest with
    | nil =>
      simp only [parseLoop_nil, output, bytes_span 1 pre [] s s0 hs h, bytes_span_zero]
      simp
    | cons c rest1 =>
      have hn1 : rest1.length ≤ n := by simpa using hn
      by_cases hc0 : c = 0
      · subst hc0
        simp only [parseLoop_zero, output, bytes_span 1 pre (0 :: rest1) s s0 hs h,
          bytes_span_zero]
        simp
      · by_cases hc : c = 92
        · subst hc
          have hflush := bytes_span fd pre (92 :: rest1) s s0 hs h
          cases rest1 with
          | nil =>
            simp only [parseLoop_bs_nil, output, hflush, bytes_leave, bytes_span_zero]
            simp
          | cons d rest2 =>
            have hn2 : rest2.length ≤ n := by
              simp only [List.length_cons] at hn1; omega
            have hp2 : s + 2 = (pre ++ [92, d]).length := by simp [hs]
            have happ : pre ++ [92, d] ++ rest2 = pre ++ 92 :: d :: rest2 := by simp
            have happ2 : [92, d] ++ rest2 = 92 :: d :: rest2 := rfl
            by_cases hd0 : d = 0
            · subst hd0
              rw [parseLoop_bs_zero gnu uts tty fd rest2 s s0,
                parseLoop_bs_zero gnu uts tty fd rest2 0 0]
              simp only [output, hflush, bytes_leave, bytes_span_zero]
              simp
            · cases hdir : directive gnu uts tty d with
              | some v =>
                have h3 := ih rest2 (pre ++ [92, d]) (s + 2) (s + 2) hn2 hp2 (Nat.le_refl _)
                have h4 := ih rest2 [92, d] (0 + 2) (0 + 2) hn2 rfl (Nat.le_refl _)
                rw [happ, List.drop_eq_nil_of_le (by omega)] at h3
                rw [happ2] at h4
                rw [parseLoop_bs_dir gnu uts tty fd d v rest2 s s0 hdir,
                  parseLoop_bs_dir gnu uts tty fd d v rest2 0 0 hdir]
                simp only [output, hflush, bytes_span_zero, h3, h4]
                simp [print, WriteCall.bytes]
              | none =>
                have h3 := ih rest2 (pre ++ [92, d]) (s + 2) s hn2 hp2 (by omega)
                have h4 := ih rest2 [92, d] (0 + 2) 0 hn2 rfl (by omega)
                rw [happ, List.drop_left' hs.symm] at h3
                rw [happ2] at h4
                rw [parseLoop_bs_other gnu uts tty fd d rest2 s s0 hdir hd0,
                  parseLoop_bs_other gnu uts tty fd d rest2 0 0 hdir hd0]
                simp only [output, hflush, bytes_span_zero, h3, h4]
                simp
        · have h3 := ih rest1 (pre ++ [c]) (s + 1) s0 hn1 (by simp [hs]) (by omega)
          have h4 := ih rest1 [c] (0 + 1) 0 hn1 rfl (by omega)
          have happ : pre ++ [c] ++ rest1 = pre ++ c :: rest1 := by simp
          have happ2 : [c] ++ rest1 = c :: rest1 := rfl
          have hd : (pre ++ [c]).drop s0 = pre.drop s0 ++ [c] :=
            List.drop_append_of_le_length (by omega)
          rw [happ, hd] at h3
          rw [happ2] at h4
          rw [parseLoop_lit gnu uts tty fd c rest1 s s0 hc0 hc,
            parseLoop_lit gnu uts tty fd c rest1 0 0 hc0 hc, h3, h4]
          simp

theorem rendered_nil (gnu : Bool) (uts : utsname) (tty : List Nat) (fd : Int) :
    rendered gnu [] uts tty fd = [] := by
  simp [rendered, parse, parseLoop_nil, output, WriteCall.bytes]

theorem rendered_bs_nil (gnu : Bool) (uts : utsname) (tty : List Nat) (fd : Int) :
    rendered gnu [92] uts tty fd = [] := by
  rw [rendered, parse, parseLoop_bs_nil]
  simp only [output, bytes_leave, bytes_span_zero]
  rfl

theorem rendered_bs_zero (gnu : Bool) (uts : utsname) (tty : List Nat) (fd : Int)
    (junk : List Nat) : rendered gnu (92 :: 0 :: junk) uts tty fd = [] := by
  rw [rendered, parse, parseLoop_bs_zero]
  simp only [output, bytes_leave, bytes_span_zero]
  rfl

theorem rendered_lit (gnu : Bool) (uts : utsname) (tty : List Nat) (fd : Int)
    (c : Nat) (r : List Nat) (h0 : c ≠ 0) (h92 : c ≠ 92) :
    rendered gnu (c :: r) uts tty fd = c :: rendered gnu r uts tty fd := by
  have h := output_parseLoop gnu uts tty fd r.length r [c] (0 + 1) 0 (Nat.le_refl _) rfl
    (by omega)
  simp only [rendered, parse]
  rw [parseLoop_lit gnu uts tty fd c r 0 0 h0 h92]
  exact h

theorem rendered_bs_dir (gnu : Bool) (uts : utsname) (tty : List Nat) (fd : Int)
    (d : Nat) (v r : List Nat) (hd : directive gnu uts tty d = some v) :
    rendered gnu (92 :: d :: r) uts tty fd = cstr v ++ rendered gnu r uts tty fd := by
  have h := output_parseLoop gnu uts tty fd r.length r [92, d] (0 + 2) (0 + 2)
    (Nat.le_refl _) rfl (Nat.le_refl _)
  have happ : [92, d] ++ r = 92 :: d :: r := rfl
  rw [happ] at h
  simp only [rendered, parse]
  rw [parseLoop_bs_dir gnu uts tty fd d v r 0 0 hd]
  simp only [output, bytes_span_zero, h]
  simp [print, WriteCall.bytes]

theorem rendered_bs_other (gnu : Bool) (uts : utsname) (tty : List Nat) (fd : Int)
    (d : Nat) (r : List Nat) (hd : directive gnu uts tty d = none) (h0 : d ≠ 0) :
    rendered gnu (92 :: d :: r) uts tty fd = 92 :: d :: rendered gnu r uts tty fd := by
  have h := output_parseLoop gnu uts tty fd r.length r [92, d] (0 + 2) 0
    (Nat.le_refl _) rfl (by omega)
  have happ : [92, d] ++ r = 92 :: d :: r := rfl
  rw [happ] at h
  simp only [rendered, parse]
  rw [parseLoop_bs_other gnu uts tty fd d r 0 0 hd h0]
  simp only [output, bytes_span_zero, h]
  rfl

/-- Literal text in front of the rest of a template is written as it is. -/
theorem rendered_append_lit (gnu : Bool) (uts : utsname) (tty : List Nat) (fd : Int)
    (r : List Nat) : ∀ a : List Nat, (∀ c ∈ a, c ≠ 92 ∧ c ≠ 0) →
      rendered gnu (a ++ r) uts tty fd = a ++ rendered gnu r uts tty fd
  | [], _ => rfl
  | c :: a, h => by
    have hc := h c (List.mem_cons_self c a)
    have ih := rendered_append_lit gnu uts tty fd r a
      (fun d hd => h d (List.mem_cons_of_mem c hd))
    rw [List.cons_append, rendered_lit gnu uts tty fd c (a ++ r) hc.2 hc.1, ih,
      List.cons_append]

/-- The loop of `parse` over literal text only advances `s`. -/
theorem parseLoop_append_lit (gnu : Bool) (uts : utsname) (tty : List Nat) (fd : Int)
    (r : List Nat) : ∀ (a : List Nat) (s s0 : Nat), (∀ c ∈ a, c ≠ 92 ∧ c ≠ 0) →
      parseLoop gnu uts tty fd (a ++ r) s s0 = parseLoop gnu uts tty fd r (s + a.length) s0
  | [], _, _, _ => rfl
  | c :: a, s, s0, h => by
    have hc := h c (List.mem_cons_self c a)
    have ih := parseLoop_append_lit gnu uts tty fd r a (s + 1) s0
      (fun d hd => h d (List.mem_cons_of_mem c hd))
    rw [List.cons_append, parseLoop_lit gnu uts tty fd c (a ++ r) s s0 hc.2 hc.1, ih,
      List.length_cons]
    congr 1
    omega

/-- C8: for a template that is literal text `a` (no backslash) followed by a
backslash at its end, `parse` makes two calls of `write`, the span `a` to `fd` and
at `leave` a span of length -1 from behind the terminator, which transfers
nothing: the total output is `a`.  The same holds with the terminator written
out in the array. -/
theorem parse_trailing_escape (gnu : Bool) (uts : utsname) (tty : List Nat) (fd : Int)
    (a : List Nat) (ha : ∀ c ∈ a, c ≠ 92 ∧ c ≠ 0) :
    parse gnu (a ++ [92]) uts tty fd =
        [WriteCall.span fd 0 a.length, WriteCall.span 1 (a.length + 2) (-1)] ∧
      rendered gnu (a ++ [92]) uts tty fd = a ∧
      ∀ junk, rendered gnu (a ++ 92 :: 0 :: junk) uts tty fd = a := by
  refine ⟨?_, ?_, ?_⟩
  · rw [parse, parseLoop_append_lit gnu uts tty fd [92] a 0 0 ha, parseLoop_bs_nil]
    have h1 : (((0 + a.length : Nat) : Int) - ((0 : Nat) : Int)) = (a.length : Int) := by
      omega
    have h2 : (((0 + a.length + 1 : Nat) : Int) - ((0 + a.length + 2 : Nat) : Int)) = -1 := by
      omega
    rw [h1, h2, Nat.zero_add]
  · rw [rendered_append_lit gnu uts tty fd [92] a ha, rendered_bs_nil, List.append_nil]
  · intro junk
    rw [rendered_append_lit gnu uts tty fd (92 :: 0 :: junk) a ha, rendered_bs_zero,
      List.append_nil]

/-- C8 at "abc" followed by a backslash: the output is "abc". -/
theorem parse_trailing_escape_witness :
    (∀ c ∈ [97, 98, 99], c ≠ 92 ∧ c ≠ 0) ∧
      rendered false ([97, 98, 99] ++ [92]) sampleUts [116, 116, 121, 48] 1 = [97, 98, 99] :=
  ⟨by decide,
    (parse_trailing_escape false sampleUts [116, 116, 121, 48] 1 [97, 98, 99]
      (by decide)).2.1⟩

/-- C9: when the character `x` after a backslash is neither a directive nor the
terminator, the total output of `parse` on `a`, backslash, `x`, `r` (with `a`
literal text) is `a`, the backslash and `x`, followed by the output of `parse` on
`r`: both characters are written as they are, also when `x` is a backslash. -/
theorem parse_unknown_directive (gnu : Bool) (uts : utsname) (tty : List Nat) (fd : Int)
    (x : Nat) (a r : List Nat) (hx0 : x ≠ 0)
    (hx : x ≠ 108 ∧ x ≠ 109 ∧ x ≠ 110 ∧ x ≠ 114 ∧ x ≠ 115 ∧ x ≠ 118 ∧
      (gnu = true → x ≠ 111))
    (ha : ∀ c ∈ a, c ≠ 92 ∧ c ≠ 0) :
    rendered gnu (a ++ 92 :: x :: r) uts tty fd =
      a ++ 92 :: x :: rendered gnu r uts tty fd := by
  obtain ⟨h1, h2, h3, h4, h5, h6, h7⟩ := hx
  have hdir : directive gnu uts tty x = none := by
    have h8 : ¬ (gnu = true ∧ x = 111) := fun h => h7 h.1 h.2
    simp only [directive, h1, h2, h3, h4, h5, h6, h8, if_false]
  rw [rendered_append_lit gnu uts tty fd (92 :: x :: r) a ha,
    rendered_bs_other gnu uts tty fd x r hdir hx0]

/-- C9 at a backslash followed by "x": the output is the same two characters. -/
theorem parse_unknown_directive_witness :
    (120 ≠ 0 ∧ (120 ≠ 108 ∧ 120 ≠ 109 ∧ 120 ≠ 110 ∧ 120 ≠ 114 ∧ 120 ≠ 115 ∧ 120 ≠ 118 ∧
      (false = true → 120 ≠ 111)) ∧ ∀ c ∈ ([] : List Nat), c ≠ 92 ∧ c ≠ 0) ∧
    rendered false [92, 120] sampleUts [116, 116, 121, 48] 1 = [92, 120] :=
  ⟨by decide,
    (parse_unknown_directive false sampleUts [116, 116, 121, 48] 1 120 [] []
      (by decide) (by decide) (by decide)).trans (by decide)⟩

/-- C10: for a directive `d` among `l`, `m`, `n`, `r`, `s`, `v` with its value `v`
(terminal name, machine, node name, release, system name, version) between
literal texts `a` and `b`, the total output of `parse` is `a`, the value as a
string (up to its terminator), then `b`. -/
theorem parse_directive (gnu : Bool) (uts : utsname) (tty : List Nat) (fd : Int)
    (a b : List Nat) (d : Nat) (v : List Nat)
    (hd : (d, v) ∈ [(108, tty), (109, uts.machine), (110, uts.nodename),
      (114, uts.release), (115, uts.sysname), (118, uts.version)])
    (ha : ∀ c ∈ a, c ≠ 92 ∧ c ≠ 0) (hb : ∀ c ∈ b, c ≠ 92 ∧ c ≠ 0) :
    rendered gnu (a ++ 92 :: d :: b) uts tty fd = a ++ cstr v ++ b := by
  have hdir : directive gnu uts tty d = some v := by
    simp only [List.mem_cons, Prod.mk.injEq, List.mem_singleton, List.not_mem_nil,
      or_false] at hd
    rcases hd with ⟨rfl, rfl⟩ | ⟨rfl, rfl⟩ | ⟨rfl, rfl⟩ | ⟨rfl, rfl⟩ | ⟨rfl, rfl⟩ | ⟨rfl, rfl⟩ <;>
      cases gnu <;> rfl
  have hbr : rendered gnu b uts tty fd = b := by
    have h := rendered_append_lit gnu uts tty fd [] b hb
    rw [List.append_nil, rendered_nil, List.append_nil] at h
    exact h
  rw [rendered_append_lit gnu uts tty fd (92 :: d :: b) a ha,
    rendered_bs_dir gnu uts tty fd d v b hdir, hbr, List.append_assoc]

/-- C10 at a backslash followed by "l" with the terminal name "tty0". -/
theorem parse_directive_witness :
    ((108, [116, 116, 121, 48]) ∈ [(108, [116, 116, 121, 48]), (109, sampleUts.machine),
        (110, sampleUts.nodename), (114, sampleUts.release), (115, sampleUts.sysname),
        (118, sampleUts.version)] ∧
      (∀ c ∈ ([] : List Nat), c ≠ 92 ∧ c ≠ 0) ∧ ∀ c ∈ ([] : List Nat), c ≠ 92 ∧ c ≠ 0) ∧
    rendered false [92, 108] sampleUts [116, 116, 121, 48] 1 = [116, 116, 121, 48] :=
  ⟨by decide,
    (parse_directive false sampleUts [116, 116, 121, 48] 1 [] [] 108 [116, 116, 121, 48]
      (by decide) (by decide) (by decide)).trans (by decide)⟩

end Getty

/-! ## Theorems: parse and issue, continued -/

namespace Getty

/-- C11: for a template without a backslash (and, being a string, without a NUL
inside), `parse` makes a single call of `write`, the whole template at `leave`,
and its total output is the template, for every host metadata, terminal name
and descriptor. -/
theorem parse_literal (gnu : Bool) (uts : utsname) (tty : List Nat) (fd : Int)
    (a : List Nat) (ha : ∀ c ∈ a, c ≠ 92 ∧ c ≠ 0) :
    parse gnu a uts tty fd = [WriteCall.span 1 0 a.length] ∧
      rendered gnu a uts tty fd = a := by
  constructor
  · have h := parseLoop_append_lit gnu uts tty fd [] a 0 0 ha
    rw [List.append_nil] at h
    rw [parse, h, parseLoop_nil, Nat.zero_add]
    have h1 : ((a.length : Nat) : Int) - ((0 : Nat) : Int) = (a.length : Int) := by omega
    rw [h1]
  · have h := rendered_append_lit gnu uts tty fd [] a ha
    rw [List.append_nil, rendered_nil, List.append_nil] at h
    exact h

/-- C11 at "login: ": the output is the template. -/
theorem parse_literal_witness :
    (∀ c ∈ [108, 111, 103, 105, 110, 58, 32], c ≠ 92 ∧ c ≠ 0) ∧
      rendered false [108, 111, 103, 105, 110, 58, 32] sampleUts [116, 116, 121, 49] 3 =
        [108, 111, 103, 105, 110, 58, 32] :=
  ⟨by decide,
    (parse_literal false sampleUts [116, 116, 121, 49] 3 [108, 111, 103, 105, 110, 58, 32]
      (by decide)).2⟩

/-- C12, at the failing input: started with a speed only, `main` passes standard
input, descriptor 0, as `fd`; `parse` on the default banner then writes the
literal spans in front of the four escapes to 0, but the four values (through
`print`) and the last span (at `leave`) to descriptor 1. -/
theorem parse_writes_descriptor_one :
    parse false defaultBanner sampleUts [116, 116, 121, 49] STDIN_FILENO =
        [WriteCall.span 0 0 11, WriteCall.str 1 [76, 105, 110, 117, 120],
          WriteCall.span 0 13 1, WriteCall.str 1 [35, 49],
          WriteCall.span 0 16 1, WriteCall.str 1 [104, 111, 115, 116],
          WriteCall.span 0 19 1, WriteCall.str 1 [116, 116, 121, 49],
          WriteCall.span 1 22 2] ∧
      (parse false defaultBanner sampleUts [116, 116, 121, 49] STDIN_FILENO).map WriteCall.fd =
        [0, 1, 0, 1, 0, 1, 0, 1, 1] := by
  decide

/-- C19, at the failing input: on "abc" followed by a backslash (length 4, the
terminator at offset 4) the call of `write` at `leave` starts at offset 5, behind
the terminator, with the length -1. -/
theorem parse_negative_span :
    parse false [97, 98, 99, 92] sampleUts [116, 116, 121, 49] 1 =
        [WriteCall.span 1 0 3, WriteCall.span 1 5 (-1)] ∧
      [97, 98, 99, 92].length < 5 ∧ (-1 : Int) < 0 := by
  decide

/-- Literal text, then a directive: the text, the value of the directive as a
string, then the output for what follows. -/
theorem rendered_lit_dir (gnu : Bool) (uts : utsname) (tty : List Nat) (fd : Int)
    (a : List Nat) (d : Nat) (v r : List Nat) (ha : ∀ c ∈ a, c ≠ 92 ∧ c ≠ 0)
    (hd : directive gnu uts tty d = some v) :
    rendered gnu (a ++ 92 :: d :: r) uts tty fd = a ++ (cstr v ++ rendered gnu r uts tty fd) := by
  rw [rendered_append_lit gnu uts tty fd (92 :: d :: r) a ha,
    rendered_bs_dir gnu uts tty fd d v r hd]

/-- The output of `parse` on the default banner. -/
theorem rendered_defaultBanner (gnu : Bool) (uts : utsname) (tty : List Nat) (fd : Int) :
    rendered gnu defaultBanner uts tty fd =
      [87, 101, 108, 99, 111, 109, 101, 32, 116, 111, 32] ++ (cstr uts.sysname ++
        ([32] ++ (cstr uts.version ++ ([32] ++ (cstr uts.nodename ++
          ([32] ++ (cstr tty ++ [10, 10]))))))) := by
  have hs : directive gnu uts tty 115 = some uts.sysname := by cases gnu <;> rfl
  have hv : directive gnu uts tty 118 = some uts.version := by cases gnu <;> rfl
  have hn : directive gnu uts tty 110 = some uts.nodename := by cases gnu <;> rfl
  have hl : directive gnu uts tty 108 = some tty := by cases gnu <;> rfl
  have hsplit : defaultBanner =
      [87, 101, 108, 99, 111, 109, 101, 32, 116, 111, 32] ++ 92 :: 115 ::
        ([32] ++ 92 :: 118 :: ([32] ++ 92 :: 110 :: ([32] ++ 92 :: 108 :: [10, 10]))) := rfl
  have htail : rendered gnu [10, 10] uts tty fd = [10, 10] := by
    have h := rendered_append_lit gnu uts tty fd [] [10, 10] (by decide)
    rw [List.append_nil, rendered_nil, List.append_nil] at h
    exact h
  rw [hsplit, rendered_lit_dir gnu uts tty fd _ 115 _ _ (by decide) hs,
    rendered_lit_dir gnu uts tty fd _ 118 _ _ (by decide) hv,
    rendered_lit_dir gnu uts tty fd _ 110 _ _ (by decide) hn,
    rendered_lit_dir gnu uts tty fd _ 108 _ _ (by decide) hl, htail]

/-- The output of `parse` on the template of line 169. -/
theorem rendered_loginTemplate (gnu : Bool) (uts : utsname) (tty : List Nat) (fd : Int) :
    rendered gnu loginTemplate uts tty fd =
      cstr uts.nodename ++ [32, 108, 111, 103, 105, 110, 58, 32] := by
  have hn : directive gnu uts tty 110 = some uts.nodename := by cases gnu <;> rfl
  have hsplit : loginTemplate = [] ++ 92 :: 110 :: [32, 108, 111, 103, 105, 110, 58, 32] := rfl
  have htail : rendered gnu [32, 108, 111, 103, 105, 110, 58, 32] uts tty fd =
      [32, 108, 111, 103, 105, 110, 58, 32] := by
    have h := rendered_append_lit gnu uts tty fd [] [32, 108, 111, 103, 105, 110, 58, 32]
      (by decide)
    rw [List.append_nil, rendered_nil, List.append_nil] at h
    exact h
  rw [hsplit, rendered_lit_dir gnu uts tty fd _ 110 _ _ (by decide) hn, htail,
    List.nil_append]

/-- C13: the last call `issue` makes is `parse` on the template of line 169,
whether the banner file was opened or not; every call of `parse` it makes gets
the same metadata, terminal name and descriptor; and when the file cannot be
opened the total output is a newline, "Welcome to ", the system name, version,
node name and terminal name separated by spaces, two newlines, the node name and
" login: " (each value as a string, up to its terminator). -/
theorem issue_trailing_template (gnu : Bool) (uts : utsname)
    (fp : Option (List (List Nat))) (tty : List Nat) (fd : Int) :
    (issue uts fp tty fd).getLast? = some (IssueStep.parse loginTemplate uts tty fd) ∧
      (∀ s ∈ issue uts fp tty fd,
        s = IssueStep.print [10] ∨ ∃ line, s = IssueStep.parse line uts tty fd) ∧
      issueOutput gnu (issue uts none tty fd) =
        [10] ++ [87, 101, 108, 99, 111, 109, 101, 32, 116, 111, 32] ++ cstr uts.sysname ++
          [32] ++ cstr uts.version ++ [32] ++ cstr uts.nodename ++ [32] ++ cstr tty ++
          [10, 10] ++ cstr uts.nodename ++ [32, 108, 111, 103, 105, 110, 58, 32] := by
  refine ⟨?_, ?_, ?_⟩
  · cases fp with
    | none => rfl
    | some lines =>
      simp only [issue]
      rw [← List.cons_append, List.getLast?_concat]
  · intro s hs
    simp only [issue, List.mem_cons, List.mem_append, List.mem_singleton] at hs
    rcases hs with h | h | h
    · exact Or.inl h
    · cases fp with
      | none =>
        simp only [List.mem_singleton] at h
        exact Or.inr ⟨defaultBanner, h⟩
      | some lines =>
        simp only [List.mem_map] at h
        obtain ⟨line, -, hl⟩ := h
        exact Or.inr ⟨line, hl.symm⟩
    · rcases h with h | h
      · exact Or.inr ⟨loginTemplate, h⟩
      · simp at h
  · simp only [issue, issueOutput, IssueStep.output, List.cons_append, List.nil_append,
      rendered_defaultBanner, rendered_loginTemplate]
    simp [cstr]

end Getty

/-! ## Theorems: parse_speed, continued -/

namespace Getty
open speed_t

/-- A valid enumerator returned by the lookup loop stands in a row with the value. -/
theorem lookup_mem (val : Nat) (e : speed_t) :
    ∀ rows : List (Nat × speed_t), lookup val rows = e → e ≠ B0 → (val, e) ∈ rows
  | [], h, hne => absurd h.symm hne
  | (v, sp) :: rows, h, hne => by
    by_cases hv : v = val
    · simp only [lookup, hv, if_true] at h
      rw [hv, h]
      exact List.mem_cons_self _ _
    · simp only [lookup, hv, if_false] at h
      exact List.mem_cons_of_mem _ (lookup_mem val e rows h hne)

/-- In a table without a repeated rate the lookup loop finds the row of a value. -/
theorem lookup_of_mem (val : Nat) (e : speed_t) :
    ∀ rows : List (Nat × speed_t), (rows.map Prod.fst).Nodup → (val, e) ∈ rows →
      lookup val rows = e
  | [], _, h => by simp at h
  | (v, sp) :: rows, hnd, h => by
    rw [List.map_cons, List.nodup_cons] at hnd
    rcases List.mem_cons.mp h with h | h
    · have h1 : v = val := (Prod.mk.inj h).1.symm
      have h2 : sp = e := (Prod.mk.inj h).2.symm
      simp [lookup, h1, h2]
    · have hv : v ≠ val := by
        intro hv
        apply hnd.1
        rw [hv]
        exact List.mem_map.mpr ⟨(val, e), h, rfl⟩
      simp only [lookup, hv, if_false]
      exact lookup_of_mem val e rows hnd.2 h

theorem v2s_rates_nodup : (v2s.map Prod.fst).Nodup := by decide

theorem v2s_speeds_nodup : (v2s.map Prod.snd).Nodup := by decide

theorem v2s_nonzero_rate : ∀ p ∈ v2s, p.1 ≠ 0 → p.2 ≠ B0 := by decide

theorem v2s_valid_speed : ∀ p ∈ v2s, p.2 ≠ B0 → p.1 ≠ 0 := by decide

/-- C16: `parse_speed` returns a valid enumerator `e` (other than `B0`) exactly
when `strtoul` leaves `errno` alone, consumes at least one character and returns
a nonzero value that stands next to `e` in the table; no rate and no enumerator
occurs in two rows of the table and every enumerator occurs in it; and the
values 9601 and 14400, absent from the table, give the sentinel. -/
theorem parse_speed_exact :
    (∀ (ULONG_MAX : Nat) (baud : List Nat) (e : speed_t),
      (parse_speed ULONG_MAX baud = e ∧ e ≠ B0) ↔
        ((strtoul ULONG_MAX baud).errnoSet = false ∧ (strtoul ULONG_MAX baud).endOff ≠ 0 ∧
          ((strtoul ULONG_MAX baud).val, e) ∈ v2s ∧ (strtoul ULONG_MAX baud).val ≠ 0)) ∧
    (v2s.map Prod.fst).Nodup ∧ (v2s.map Prod.snd).Nodup ∧
    (∀ e : speed_t, e ∈ v2s.map Prod.snd) ∧
    (∀ ULONG_MAX : Nat, 4294967295 ≤ ULONG_MAX →
      parse_speed ULONG_MAX [57, 54, 48, 49] = B0 ∧
      parse_speed ULONG_MAX [49, 52, 52, 48, 48] = B0) := by
  refine ⟨?_, v2s_rates_nodup, v2s_speeds_nodup, ?_, ?_⟩
  · intro U baud e
    constructor
    · rintro ⟨h, hne⟩
      by_cases hfail : ((strtoul U baud).errnoSet || (strtoul U baud).endOff == 0) = true
      · simp only [parse_speed, hfail, if_true] at h
        exact absurd h.symm hne
      · simp only [parse_speed, hfail] at h
        have hmem := lookup_mem _ e v2s h hne
        simp only [Bool.or_eq_true, beq_iff_eq, not_or, Bool.not_eq_true] at hfail
        exact ⟨hfail.1, hfail.2, hmem, v2s_valid_speed _ hmem hne⟩
    · rintro ⟨herr, hend, hmem, hval⟩
      have hlk := lookup_of_mem _ e v2s v2s_rates_nodup hmem
      refine ⟨?_, v2s_nonzero_rate _ hmem hval⟩
      simp [parse_speed, herr, hend, hlk]
  · intro e
    cases e <;> decide
  · intro U hU
    have h1 := strtoul_digits U [57, 54, 48, 49] (by decide) (by decide)
      (by have : digitsValue [57, 54, 48, 49] = 9601 := by decide
          omega)
    have h2 := strtoul_digits U [49, 52, 52, 48, 48] (by decide) (by decide)
      (by have : digitsValue [49, 52, 52, 48, 48] = 14400 := by decide
          omega)
    constructor
    · simp only [parse_speed, h1]
      decide
    · simp only [parse_speed, h2]
      decide

/-- C16 at "9600": the value 9600 stands next to `B9600` in the table. -/
theorem parse_speed_exact_witness :
    parse_speed (2 ^ 64 - 1) [57, 54, 48, 48] = B9600 ∧ B9600 ≠ B0 :=
  (parse_speed_exact.1 (2 ^ 64 - 1) [57, 54, 48, 48] B9600).mpr (by decide)

end Getty

/-! ## Theorems: getty, continued -/

namespace Getty

/-- The erase loop in closed form. -/
theorem eraseLoop_eq (fd : Int) : ∀ (n : Nat) (st : GState),
    eraseLoop fd n st =
      { np := 0, mem := st.mem,
        trace := st.trace ++ List.replicate n (Event.write fd [8, 32, 8]) }
  | 0, st => by simp [eraseLoop]
  | n + 1, st => by
    rw [eraseLoop, eraseLoop_eq fd n]
    simp [GState.emit, List.replicate_succ]

/-- One round of the inner loop on the line-kill code. -/
theorem lineLoop_kill_step (fd : Int) (len : Nat) (rest : List ReadResult) (st : GState) :
    lineLoop fd len (ReadResult.byte 21 :: rest) st =
      lineLoop fd len rest
        { np := 0, mem := st.mem,
          trace := st.trace ++ List.replicate st.np (Event.write fd [8, 32, 8]) } := by
  have h21 : (21 : Nat) < 256 := by decide
  rw [lineLoop, readch_byte h21]
  simp only [CTL_U, if_true]
  rw [if_neg (by decide), eraseLoop_eq]

/-- The inner loop on characters that are neither newline nor line-kill, with
further reads behind them: the first `len - np` are stored from `np` on, the
others are dropped, and the loop goes on with the reads that follow. -/
theorem lineLoop_append_plain (fd : Int) (len : Nat) (r : List ReadResult) :
    ∀ (l : List Nat) (st : GState), st.np ≤ len →
      (∀ c ∈ l, c < 256 ∧ c ≠ 10 ∧ c ≠ 21) →
      lineLoop fd len (bytes l ++ r) st =
        lineLoop fd len r
          { np := min (st.np + l.length) len,
            mem := pokes st.mem st.np (l.take (len - st.np)),
            trace := st.trace ++ storeEvents st.np (l.take (len - st.np)) }
  | [], st, hnp, _ => by
    cases st with
    | mk np mem trace =>
      simp only [] at hnp
      simp [bytes, pokes, storeEvents, Nat.min_eq_left hnp]
  | c :: l, st, hnp, hl => by
    cases st with
    | mk np mem trace =>
      simp only [] at hnp
      obtain ⟨hc, h10, h21⟩ := hl c (List.mem_cons_self c l)
      have hl2 : ∀ d ∈ l, d < 256 ∧ d ≠ 10 ∧ d ≠ 21 :=
        fun d hd => hl d (List.mem_cons_of_mem c hd)
      have hb : bytes (c :: l) = ReadResult.byte c :: bytes l := rfl
      by_cases hlt : np < len
      · have ih := lineLoop_append_plain fd len r l
          { np := np + 1, mem := poke mem np c, trace := trace ++ [Event.store np c] }
          (by simpa using hlt) hl2
        have htake : len - np = (len - (np + 1)) + 1 := by omega
        rw [hb, List.cons_append, lineLoop, readch_byte hc]
        simp only [h10, CTL_U, h21, if_false, hlt, if_true, GState.store]
        rw [ih, htake, List.take_succ_cons]
        simp only [pokes, storeEvents, List.length_cons, List.append_assoc, List.singleton_append]
        have hmin : min (np + 1 + l.length) len = min (np + (l.length + 1)) len := by
          congr 1; omega
        rw [hmin]
      · have hnl : np = len := by omega
        have ih := lineLoop_append_plain fd len r l
          { np := np, mem := mem, trace := trace } (by simpa using hnp) hl2
        rw [hb, List.cons_append, lineLoop, readch_byte hc]
        simp only [h10, CTL_U, h21, if_false, hlt]
        rw [ih]
        subst hnl
        simp [pokes, storeEvents]

/-- The inner loop from a line-kill code to the newline of its line. -/
theorem lineLoop_kill_line (fd : Int) (len : Nat) (st : GState) (post : List Nat)
    (rest : List ReadResult) (hpost : ∀ c ∈ post, c < 256 ∧ c ≠ 10 ∧ c ≠ 21) :
    lineLoop fd len (ReadResult.byte 21 :: (bytes post ++ ReadResult.byte 10 :: rest)) st =
      (LineStop.newline rest,
        { np := min post.length len,
          mem := pokes st.mem 0 (post.take len),
          trace := st.trace ++ List.replicate st.np (Event.write fd [8, 32, 8]) ++
            storeEvents 0 (post.take len) }) := by
  have h := lineLoop_plain fd len rest post
    { np := 0, mem := st.mem,
      trace := st.trace ++ List.replicate st.np (Event.write fd [8, 32, 8]) }
    (Nat.zero_le len) hpost
  simp only [Nat.zero_add, Nat.sub_zero] at h
  rw [lineLoop_kill_step, h]

/-- C17: the line-kill code is `CTL('U')`, byte 21.  When the inner loop of
`getty` reads it with `np` characters buffered, it writes the erase sequence
backspace, space, backspace `np` times to `fd`, resets `np` to the start of the
buffer and reads on in the same line: run to the newline of the line, the loop
returns there with only the characters typed after the line-kill buffered, from
`name[0]` on, and with the `np` erase writes and the stores of those characters
as its only events (no store of the code, no call of `issue`).  In a whole run
of `getty` on a line `l`, line-kill, `post`, newline the trace is one call of
`issue`, the stores of `l`, as many erase writes as characters of `l` were
buffered, the stores of `post` and the terminators. -/
theorem lineLoop_line_kill (fd : Int) (len : Nat) :
    CTL 85 = 21 ∧
    (∀ (st : GState) (rest : List ReadResult),
      lineLoop fd len (ReadResult.byte 21 :: rest) st =
        lineLoop fd len rest
          { np := 0, mem := st.mem,
            trace := st.trace ++ List.replicate st.np (Event.write fd [8, 32, 8]) }) ∧
    (∀ (st : GState) (post : List Nat) (rest : List ReadResult),
      (∀ c ∈ post, c < 256 ∧ c ≠ 10 ∧ c ≠ 21) →
      lineLoop fd len (ReadResult.byte 21 :: (bytes post ++ ReadResult.byte 10 :: rest)) st =
        (LineStop.newline rest,
          { np := min post.length len,
            mem := pokes st.mem 0 (post.take len),
            trace := st.trace ++ List.replicate st.np (Event.write fd [8, 32, 8]) ++
              storeEvents 0 (post.take len) })) ∧
    (∀ (tty : List Nat) (name : Nat → Nat) (l post : List Nat) (rest : List ReadResult),
      (∀ c ∈ l, c < 256 ∧ c ≠ 10 ∧ c ≠ 21) →
      (∀ c ∈ post, c < 256 ∧ c ≠ 10 ∧ c ≠ 21 ∧ c ≠ 0) → post ≠ [] → post.length < len →
      (getty fd tty name len
          (bytes l ++ ReadResult.byte 21 :: (bytes post ++ ReadResult.byte 10 :: rest))).1 =
        Outcome.returned ∧
      (getty fd tty name len
          (bytes l ++ ReadResult.byte 21 :: (bytes post ++ ReadResult.byte 10 :: rest))).2.trace =
        Event.store 0 0 :: Event.issue tty fd ::
          (storeEvents 0 (l.take len) ++
            (List.replicate (min l.length len) (Event.write fd [8, 32, 8]) ++
              (storeEvents 0 post ++
                [Event.store post.length 0, Event.store (len - 1) 0])))) := by
  refine ⟨CTL_U, fun st rest => lineLoop_kill_step fd len rest st,
    fun st post rest hpost => lineLoop_kill_line fd len st post rest hpost, ?_⟩
  intro tty name l post rest hl hpost hne hlen
  have hplain : ∀ c ∈ post, c < 256 ∧ c ≠ 10 ∧ c ≠ 21 := fun c hc =>
    ⟨(hpost c hc).1, (hpost c hc).2.1, (hpost c hc).2.2.1⟩
  have h0 : ∀ c ∈ post, c ≠ 0 := fun c hc => (hpost c hc).2.2.2
  have hmin : min post.length len = post.length := by omega
  have htake : post.take len = post := List.take_of_length_le (by omega)
  have hfirst := lineLoop_append_plain fd len
    (ReadResult.byte 21 :: (bytes post ++ ReadResult.byte 10 :: rest)) l
    { np := 0, mem := poke name 0 0, trace := [Event.store 0 0, Event.issue tty fd] }
    (Nat.zero_le len) hl
  simp only [Nat.zero_add, Nat.sub_zero] at hfirst
  have hwhole : lineLoop fd len
      (bytes l ++ ReadResult.byte 21 :: (bytes post ++ ReadResult.byte 10 :: rest))
      { (GState.emit (GState.store { np := 0, mem := name, trace := [] } 0 0)
          (Event.issue tty fd)) with np := 0 } =
      (LineStop.newline rest,
        { np := min post.length len,
          mem := pokes (pokes (poke name 0 0) 0 (l.take len)) 0 (post.take len),
          trace := ([Event.store 0 0, Event.issue tty fd] ++ storeEvents 0 (l.take len)) ++
            List.replicate (min l.length len) (Event.write fd [8, 32, 8]) ++
            storeEvents 0 (post.take len) }) := by
    have hst : ({ (GState.emit (GState.store { np := 0, mem := name, trace := [] } 0 0)
        (Event.issue tty fd)) with np := 0 } : GState) =
        { np := 0, mem := poke name 0 0, trace := [Event.store 0 0, Event.issue tty fd] } := rfl
    rw [hst, hfirst, lineLoop_kill_line fd len _ post rest hplain]
  rw [getty_unfold,
    gettyLoop_of_line fd tty len _ _ rest _ post _ _ hne h0 (by omega) hwhole]
  refine ⟨rfl, ?_⟩
  simp only [GState.store, hmin, htake]
  simp

/-- C17 at "ab", line-kill, "c", newline: two erase writes between the stores of
"ab" and the store of "c". -/
theorem lineLoop_line_kill_witness :
    ((∀ c ∈ [97, 98], c < 256 ∧ c ≠ 10 ∧ c ≠ 21) ∧
      (∀ c ∈ [99], c < 256 ∧ c ≠ 10 ∧ c ≠ 21 ∧ c ≠ 0) ∧ [99] ≠ [] ∧ [99].length < 30) ∧
    (getty 0 [] (fun _ => 0) 30
        (bytes [97, 98] ++ ReadResult.byte 21 :: (bytes [99] ++ ReadResult.byte 10 :: []))).2.trace =
      [Event.store 0 0, Event.issue [] 0, Event.store 0 97, Event.store 1 98,
        Event.write 0 [8, 32, 8], Event.write 0 [8, 32, 8], Event.store 0 99,
        Event.store 1 0, Event.store 29 0] :=
  ⟨by decide,
    ((lineLoop_line_kill 0 30).2.2.2 [] (fun _ => 0) [97, 98] [99] []
      (by decide) (by decide) (by decide) (by decide)).2.trans (by decide)⟩

/-- Characters of a line up to and including its last line-kill (or none at all)
leave the inner loop running with an empty buffer. -/
theorem lineLoop_reset (fd : Int) (len : Nat) (pre : List Nat) (st : GState)
    (hnp : st.np = 0) (hpre : ∀ c ∈ pre, c < 256 ∧ c ≠ 10)
    (hk : pre = [] ∨ pre.getLast? = some 21) :
    ∃ st0 : GState, st0.np = 0 ∧
      ∀ r, lineLoop fd len (bytes pre ++ r) st = lineLoop fd len r st0 := by
  rcases hk with hk | hk
  · subst hk
    exact ⟨st, hnp, fun _ => rfl⟩
  · obtain ⟨p, hp⟩ := List.getLast?_eq_some_iff.mp hk
    subst hp
    have hp2 : ∀ c ∈ p, c < 256 ∧ c ≠ 10 := fun c hc => hpre c (List.mem_append_left _ hc)
    obtain ⟨st2, hrun, -⟩ := lineLoop_skip fd len p st hp2
    refine ⟨{ np := 0
              mem := st2.mem
              trace := st2.trace ++ List.replicate st2.np (Event.write fd [8, 32, 8]) },
      rfl, ?_⟩
    intro r
    have hb : bytes (p ++ [21]) ++ r = bytes p ++ ReadResult.byte 21 :: r := by
      simp [bytes]
    rw [hb, hrun, lineLoop_kill_step fd len r st2]

/-- C20, refuted as stated: the line NUL, "a", newline leaves two characters in
the buffer, yet `getty` does not return after it: it calls `issue` a second time
and waits for the next line, and returns only after a further line "b". -/
theorem getty_nul_first_counterexample :
    (lineLoop 0 30 (bytes [0, 97, 10]) { np := 0, mem := fun _ => 0, trace := [] }).2.np = 2 ∧
      (getty 0 [] (fun _ => 0) 30 (bytes [0, 97, 10])).1 = Outcome.blocked ∧
      issueCount (getty 0 [] (fun _ => 0) 30 (bytes [0, 97, 10])).2.trace = 2 ∧
      (getty 0 [] (fun _ => 0) 30 (bytes [0, 97, 10, 98, 10])).1 = Outcome.returned ∧
      username (getty 0 [] (fun _ => 0) 30 (bytes [0, 97, 10, 98, 10])).2.mem 30 = [98] := by
  decide

/-- C20, amended: a round of the outer loop of `getty` that reads a line whose
buffered characters are `l` (what follows the last line-kill, or the whole line)
treats the line as blank exactly when `l` is empty or starts with the NUL byte:
then it goes round again (with `issue`), otherwise `getty` leaves the loop.  In
both cases `np` stands behind the buffered characters. -/
theorem gettyLoop_blank_test (fd : Int) (tty : List Nat) (len f : Nat)
    (pre l : List Nat) (rest : List ReadResult) (st : GState) (hlen : 1 ≤ len)
    (hpre : ∀ c ∈ pre, c < 256 ∧ c ≠ 10) (hk : pre = [] ∨ pre.getLast? = some 21)
    (hl : ∀ c ∈ l, c < 256 ∧ c ≠ 10 ∧ c ≠ 21) :
    ∃ st2 : GState, st2.np = min l.length len ∧
      gettyLoop fd tty len (f + 1) (bytes pre ++ (bytes l ++ ReadResult.byte 10 :: rest)) st =
        if l = [] ∨ l.head? = some 0 then gettyLoop fd tty len f rest st2
        else (Outcome.returned, st2) := by
  obtain ⟨st0, hnp0, hrun⟩ := lineLoop_reset fd len pre
    { (st.emit (Event.issue tty fd)) with np := 0 } rfl hpre hk
  have hline := lineLoop_plain fd len rest l st0 (by rw [hnp0]; exact Nat.zero_le len) hl
  rw [hnp0] at hline
  simp only [Nat.zero_add, Nat.sub_zero] at hline
  refine ⟨{ np := min l.length len
            mem := poke (pokes st0.mem 0 (l.take len)) (min l.length len) 0
            trace := st0.trace ++ storeEvents 0 (l.take len) ++
              [Event.store (min l.length len) 0] }, rfl, ?_⟩
  rw [gettyLoop, hrun, hline]
  simp only [GState.store]
  cases l with
  | nil =>
    simp [poke]
  | cons c t =>
    have hmin : min (c :: t).length len ≠ 0 := by
      simp only [List.length_cons]; omega
    have htk : 0 < ((c :: t).take len).length := by
      simp only [List.length_take, List.length_cons]; omega
    have hcell := pokes_at ((c :: t).take len) st0.mem 0 0 htk
    obtain ⟨n, hn⟩ : ∃ n, len = n + 1 := ⟨len - 1, by omega⟩
    have hfirst : pokes st0.mem 0 ((c :: t).take len) 0 = c := by
      rw [Nat.add_zero] at hcell
      rw [hcell, hn]; simp
    have hval : poke (pokes st0.mem 0 ((c :: t).take len)) (min (c :: t).length len) 0 0 = c := by
      simp only [poke]
      rw [if_neg (Ne.symm hmin), hfirst]
    rw [hval]
    by_cases hc : c = 0
    · simp [hc]
    · simp [hc]

/-- C20 amended, at the line "a": the loop is left. -/
theorem gettyLoop_blank_test_witness :
    (1 ≤ 30 ∧ (∀ c ∈ ([] : List Nat), c < 256 ∧ c ≠ 10) ∧
      (([] : List Nat) = [] ∨ ([] : List Nat).getLast? = some 21) ∧
      ∀ c ∈ [97], c < 256 ∧ c ≠ 10 ∧ c ≠ 21) ∧
    ∃ st2 : GState, st2.np = min [97].length 30 ∧
      gettyLoop 0 [] 30 (0 + 1) (bytes [] ++ (bytes [97] ++ ReadResult.byte 10 :: []))
          { np := 0, mem := fun _ => 0, trace := [] } =
        if [97] = [] ∨ [97].head? = some 0 then gettyLoop 0 [] 30 0 [] st2
        else (Outcome.returned, st2) :=
  ⟨by decide,
    gettyLoop_blank_test 0 [] 30 0 [] [97] [] { np := 0, mem := fun _ => 0, trace := [] }
      (by decide) (by decide) (by decide) (by decide)⟩

end Getty

/-! ## Theorems: main and login -/

namespace Getty
open speed_t

/-- C14: with a first argument other than "-h" for which `parse_speed` returns
`B0`, and the terminal name found (a TTY argument, or `ttyname` not `NULL`),
`main` writes the diagnostic and returns 1; it has called neither `stty` nor
`getty` nor `execl`. -/
theorem main_invalid_speed (env : Env) (argv : List (List Nat)) (hargc : 1 < argv.length)
    (hh : cstr (argv.getD 1 []) ≠ [45, 104])
    (hsp : parse_speed env.ULONG_MAX (argv.getD 1 []) = B0)
    (htty : 2 < argv.length ∨ env.ttyname STDIN_FILENO ≠ none) :
    (main env argv).2 = MainEnd.returned 1 ∧
      MainStep.warnx Diag.invalidSpeed ∈ (main env argv).1 ∧
      ∀ s ∈ (main env argv).1, s.isLine = false := by
  by_cases h2 : 2 < argv.length
  · simp only [main, mainArgs, if_pos hargc, if_neg hh, if_pos h2, if_pos hsp]
    refine ⟨trivial, by simp, ?_⟩
    intro s hs
    simp only [List.mem_cons, List.mem_singleton, List.not_mem_nil, or_false] at hs
    rcases hs with hs | hs <;> rw [hs] <;> rfl
  · have hname : env.ttyname STDIN_FILENO ≠ none := by
      rcases htty with h | h
      · exact absurd h h2
      · exact h
    obtain ⟨t, ht⟩ := Option.ne_none_iff_exists'.mp hname
    simp only [main, mainArgs, if_pos hargc, if_neg hh, if_neg h2, ht, if_pos hsp]
    refine ⟨trivial, by simp, ?_⟩
    intro s hs
    simp only [List.mem_cons, List.mem_singleton, List.not_mem_nil, or_false] at hs
    rcases hs with hs | hs <;> rw [hs] <;> rfl

/-- C14 at the explicit speed "0". -/
theorem main_invalid_speed_witness :
    (1 < [[103], [48]].length ∧ cstr ([[103], [48]].getD 1 []) ≠ [45, 104] ∧
      parse_speed sampleEnv.ULONG_MAX ([[103], [48]].getD 1 []) = B0 ∧
      (2 < [[103], [48]].length ∨ sampleEnv.ttyname STDIN_FILENO ≠ none)) ∧
    (main sampleEnv [[103], [48]]).2 = MainEnd.returned 1 :=
  ⟨by decide,
    (main_invalid_speed sampleEnv [[103], [48]] (by decide) (by decide) (by decide)
      (by decide)).1⟩

/-- C15, at the failing input: started without any argument, `main` skips lines
299-322, so neither `fd` nor `tty` is assigned, and after the signals are
ignored line 335 reads `tty`. -/
theorem main_no_argument (env : Env) (prog : List Nat) :
    mainArgs env [prog] = Setup.go [] none Ptr.unassigned B38400 ∧
      main env [prog] = ([MainStep.signals], MainEnd.uninitialised) := by
  constructor <;> rfl

/-- C18, refuted as stated: started as `getty 9600 x` the session's terminal is
the descriptor 3 returned by `open`, which is not a character device, while
descriptor 0 is one; after the failed `execl` of the login program `login` runs
`fstat` on descriptor 0 and attempts the shell. -/
theorem login_shell_counterexample :
    sampleEnv.fstat 3 = some false ∧
      MainStep.getty 3 [47, 100, 101, 118, 47, 120] 30 ∈
        (main sampleEnv [[103], [57, 54, 48, 48], [120]]).1 ∧
      MainStep.execl Prog.shell ∈ (main sampleEnv [[103], [57, 54, 48, 48], [120]]).1 := by
  decide

/-- C18, amended: when the `execl` of the login program fails, `login` attempts
the shell exactly when `fstat` on descriptor 0 succeeds and reports a character
device; the process is then replaced by the shell when that `execl` succeeds,
and in every other case `login` returns 1. -/
theorem login_fallback (env : Env) (name : List Nat) (h : env.execLogin = false) :
    (MainStep.execl Prog.shell ∈ (login env name).1 ↔ env.fstat 0 = some true) ∧
      (MainStep.fstat 0 ∈ (login env name).1 ∧
        ∀ d, MainStep.fstat d ∈ (login env name).1 → d = 0) ∧
      ((login env name).2 =
        if env.fstat 0 = some true ∧ env.execShell = true then MainEnd.replaced Prog.shell
        else MainEnd.returned 1) := by
  by_cases hf : env.fstat 0 = some true
  · by_cases hs : env.execShell = true
    · simp [login, h, hf, hs]
    · simp [login, h, hf, hs]
  · simp [login, h, hf]

/-- C18 amended, at a descriptor 0 that is a character device with no shell to
execute: the shell is attempted and `login` returns 1. -/
theorem login_fallback_witness :
    sampleEnv.execLogin = false ∧
      (MainStep.execl Prog.shell ∈ (login sampleEnv [97]).1 ↔ sampleEnv.fstat 0 = some true) ∧
      (login sampleEnv [97]).2 = MainEnd.returned 1 :=
  ⟨by decide, (login_fallback sampleEnv [97] (by decide)).1,
    (login_fallback sampleEnv [97] (by decide)).2.2.trans (by decide)⟩

end Getty
